import Mathlib

/-!
Verification of the request scheduler, process supervisor, deduplicator and
result cache of the pth-viewer extension.

The backend manager (class PythonServerManager) is embedded as a small-step
state machine.  JavaScript is single threaded: every synchronous segment of
the source between two await points is one atomic step.  The steps are:

* submit endpoint payload : the synchronous body of sendRequest, including
  the release-cancellation scan, the in-flight-promise join, enqueueing the
  task object and the synchronous activation of processQueue;
* complete o : the currently running task's awaited work (ensureServerStarted
  and doHttpRequest) finishes with outcome o; the task resolves or rejects
  its caller promise, its finally block removes the load key from
  loadingPromises, and the processQueue loop pops the next task or, when the
  queue has drained, applies a pending interpreter switch;
* close code : the child process close handler of ensureServerStarted;
* change p : the synchronous body of changePythonInterpreter;
* spawn / serverStarted : the points where cp.spawn assigns serverProcess
  and where the stdout SERVER_STARTED handler assigns the port.

Ghost fields (submittedIds, startedIds, completedIds, settled, restarts)
record the observable history and appear only in theorem statements.
-/

namespace PthViewer

inductive TaskType where
  | load
  | release
  | other
deriving DecidableEq, Repr

/-- The payload of a sendRequest call; file_path defaults to "" and
force_local is falsy when absent, mirroring payload.file_path || "". -/
structure Payload where
  file_path : String
  force_local : Bool
deriving DecidableEq, Repr

/-- The QueueTask objects built in sendRequest.  requestKey is the key the
run closure deletes from loadingPromises in its finally block; pid
identifies the caller promise created by this submission. -/
structure QueueTask where
  type : TaskType
  fileKey : String
  requestKey : String
  pid : Nat
deriving DecidableEq, Repr

inductive TaskOutcome where
  | ok
  | err (msg : String)
deriving DecidableEq, Repr

/-- External collaborators: path.normalize from node:path. -/
structure Cfg where
  norm : String → String

/-- toLowerCase, written as a character-wise map so that it evaluates by
kernel reduction. -/
def jsToLower (s : String) : String :=
  String.mk (s.data.map Char.toLower)

/-- getFileKey: path.normalize(filePath).toLowerCase(). -/
def getFileKey (cfg : Cfg) (filePath : String) : String :=
  jsToLower (cfg.norm filePath)

/-- The request key of sendRequest: for /load the resource key extended with
the force_local flag, otherwise the resource key alone. -/
def requestKeyFor (cfg : Cfg) (endpoint : String) (pl : Payload) : String :=
  let resourceKey := getFileKey cfg pl.file_path
  if endpoint = "/load" then
    resourceKey ++ "::" ++ (if pl.force_local then "true" else "false")
  else resourceKey

def taskTypeFor (endpoint : String) : TaskType :=
  if endpoint = "/load" then .load
  else if endpoint = "/release" then .release
  else .other

/-- Association-list view of the loadingPromises Map. -/
def mapLookup (k : String) : List (String × Nat) → Option Nat
  | [] => none
  | e :: rest => if e.1 = k then some e.2 else mapLookup k rest

def mapErase (k : String) : List (String × Nat) → List (String × Nat)
  | [] => []
  | e :: rest => if e.1 = k then mapErase k rest else e :: mapErase k rest

def mapSet (k : String) (v : Nat) (m : List (String × Nat)) : List (String × Nat) :=
  (k, v) :: mapErase k m

/-- The state of the PythonServerManager singleton together with ghost
history fields. -/
structure MgrState where
  requestQueue : List QueueTask
  loadingPromises : List (String × Nat)
  isProcessingQueue : Bool
  running : Option QueueTask
  pendingPythonPath : Option String
  currentPythonPath : Option String
  serverAlive : Bool
  port : Option Nat
  isStarting : Bool
  nextPromiseId : Nat
  submittedIds : List Nat
  startedIds : List Nat
  completedIds : List Nat
  settled : List (Nat × TaskOutcome)
  restarts : List String
deriving DecidableEq, Repr

def initState : MgrState :=
  { requestQueue := []
    loadingPromises := []
    isProcessingQueue := false
    running := none
    pendingPythonPath := none
    currentPythonPath := none
    serverAlive := false
    port := none
    isStarting := false
    nextPromiseId := 0
    submittedIds := []
    startedIds := []
    completedIds := []
    settled := []
    restarts := [] }

def settledPids (s : MgrState) : List Nat := s.settled.map Prod.fst

def queuePids (s : MgrState) : List Nat := s.requestQueue.map QueueTask.pid

/-- A promise settles at most once. -/
def settleOnce (p : Nat) (o : TaskOutcome) (l : List (Nat × TaskOutcome)) :
    List (Nat × TaskOutcome) :=
  if p ∈ l.map Prod.fst then l else l ++ [(p, o)]

/-- restartServer: kill the process, record the new interpreter, clear the
pending switch, the in-flight map and the queue.  Only kills and clears; the
next actual task lazily respawns. -/
def restartServer (pythonPath : String) (s : MgrState) : MgrState :=
  { s with
    serverAlive := false
    port := none
    currentPythonPath := some pythonPath
    pendingPythonPath := none
    isStarting := false
    loadingPromises := []
    requestQueue := []
    restarts := s.restarts ++ [pythonPath] }

/-- The findIndex-and-splice in sendRequest: remove the first queued release
task whose fileKey matches the resource key. -/
def cancelRelease (resourceKey : String) : List QueueTask → List QueueTask
  | [] => []
  | t :: ts =>
    if t.type = TaskType.release ∧ t.fileKey = resourceKey then ts
    else t :: cancelRelease resourceKey ts

/-- The processQueue loop at a loop boundary: pop the head of the queue and
start it, or exit the loop and apply a pending interpreter switch. -/
def startNext (s : MgrState) : MgrState :=
  match s.requestQueue with
  | [] =>
    let s1 := { s with isProcessingQueue := false, running := none }
    match s1.pendingPythonPath with
    | some p => restartServer p s1
    | none => s1
  | t :: rest =>
    { s with
      requestQueue := rest
      running := some t
      isProcessingQueue := true
      startedIds := s.startedIds ++ [t.pid] }

/-- The trailing processQueue() call of sendRequest: a no-op when the drain
loop is already active, otherwise it enters the loop. -/
def maybeProcess (s : MgrState) : MgrState :=
  if s.isProcessingQueue then s else startNext { s with isProcessingQueue := true }

/-- requestQueue.push(taskObj), with the ghost bookkeeping of the freshly
created promise. -/
def pushTask (t : QueueTask) (s : MgrState) : MgrState :=
  { s with
    requestQueue := s.requestQueue ++ [t]
    nextPromiseId := s.nextPromiseId + 1
    submittedIds := s.submittedIds ++ [t.pid] }

def enqueueTask (t : QueueTask) (s : MgrState) : MgrState :=
  maybeProcess (pushTask t s)

/-- The synchronous body of sendRequest.  Returns the successor state and
the promise handed to the caller (identified by its pid). -/
def submitStep (cfg : Cfg) (endpoint : String) (pl : Payload) (s : MgrState) :
    MgrState × Nat :=
  let resourceKey := getFileKey cfg pl.file_path
  let requestKey := requestKeyFor cfg endpoint pl
  if endpoint = "/load" then
    let s0 := { s with requestQueue := cancelRelease resourceKey s.requestQueue }
    match mapLookup requestKey s0.loadingPromises with
    | some p => (s0, p)
    | none =>
      let t : QueueTask :=
        { type := .load, fileKey := resourceKey, requestKey := requestKey,
          pid := s0.nextPromiseId }
      let s1 := enqueueTask t s0
      ({ s1 with loadingPromises := mapSet requestKey t.pid s1.loadingPromises },
       t.pid)
  else
    let t : QueueTask :=
      { type := taskTypeFor endpoint, fileKey := resourceKey,
        requestKey := requestKey, pid := s.nextPromiseId }
    (enqueueTask t s, t.pid)

/-- The running task's awaited work finishes: resolve or reject the caller
promise, run the finally block, continue the drain loop. -/
def completeStep (o : TaskOutcome) (s : MgrState) : MgrState :=
  match s.running with
  | none => s
  | some t =>
    startNext
      { s with
        settled := settleOnce t.pid o s.settled
        completedIds := s.completedIds ++ [t.pid]
        loadingPromises :=
          if t.type = TaskType.load then mapErase t.requestKey s.loadingPromises
          else s.loadingPromises
        running := none }

/-- The child-process close handler: reset the live-process state and drop
the whole queue and in-flight map. -/
def closeStep (s : MgrState) : MgrState :=
  { s with
    serverAlive := false
    port := none
    isStarting := false
    loadingPromises := []
    requestQueue := [] }

/-- The body of changePythonInterpreter after path normalization. -/
def changeBody (newPath : String) (s : MgrState) : MgrState :=
  if s.isProcessingQueue = true ∨ s.requestQueue ≠ [] then
    { s with pendingPythonPath := some newPath }
  else restartServer newPath s

/-- changePythonInterpreter: no-op only when the normalized target equals
the normalized current path and a server process is live. -/
def changeStep (cfg : Cfg) (newPath : String) (s : MgrState) : MgrState :=
  match s.currentPythonPath with
  | some cur =>
    if cfg.norm newPath = cfg.norm cur ∧ s.serverAlive = true then s
    else changeBody newPath s
  | none => changeBody newPath s

inductive Event where
  | submit (endpoint : String) (pl : Payload)
  | complete (o : TaskOutcome)
  | close (code : Int)
  | change (newPath : String)
  | spawn
  | serverStarted (port : Nat)
deriving DecidableEq, Repr

def step (cfg : Cfg) (s : MgrState) : Event → MgrState
  | .submit ep pl => (submitStep cfg ep pl s).1
  | .complete o => completeStep o s
  | .close _ => closeStep s
  | .change p => changeStep cfg p s
  | .spawn => { s with serverAlive := true, isStarting := true }
  | .serverStarted p => { s with port := some p, isStarting := false }

def run (cfg : Cfg) (s : MgrState) : List Event → MgrState
  | [] => s
  | e :: es => run cfg (step cfg s e) es

/-- An event trace free of child-process close events. -/
def closeFree (es : List Event) : Bool :=
  es.all fun e =>
    match e with
    | .close _ => false
    | _ => true

/-! ### Association-list map lemmas -/

theorem mapLookup_mapErase_ne (k k' : String) (m : List (String × Nat)) (h : k' ≠ k) :
    mapLookup k' (mapErase k m) = mapLookup k' m := by
  induction m with
  | nil => rfl
  | cons e rest ih =>
    by_cases he : e.1 = k
    · have hne : ¬e.1 = k' := fun hx => h (hx ▸ he)
      simp only [mapErase, if_pos he, ih, mapLookup, if_neg hne]
    · by_cases he' : e.1 = k'
      · simp only [mapErase, if_neg he, mapLookup, if_pos he']
      · simp only [mapErase, if_neg he, mapLookup, if_neg he', ih]

theorem mapLookup_mapSet_self (k : String) (v : Nat) (m : List (String × Nat)) :
    mapLookup k (mapSet k v m) = some v := by
  simp [mapSet, mapLookup]

theorem mapLookup_mapSet_ne (k k' : String) (v : Nat) (m : List (String × Nat))
    (h : k' ≠ k) : mapLookup k' (mapSet k v m) = mapLookup k' m := by
  have hks : ¬(k, v).1 = k' := fun hx => h hx.symm
  simp only [mapSet, mapLookup, if_neg hks]
  exact mapLookup_mapErase_ne k k' m h

theorem mapLookup_mem (k : String) (p : Nat) (m : List (String × Nat))
    (h : mapLookup k m = some p) : (k, p) ∈ m := by
  induction m with
  | nil => simp [mapLookup] at h
  | cons e rest ih =>
    by_cases he : e.1 = k
    · simp only [mapLookup, if_pos he] at h
      obtain ⟨e1, e2⟩ := e
      simp only at he
      injection h with h2
      subst he
      subst h2
      exact List.mem_cons_self _ _
    · simp only [mapLookup, if_neg he] at h
      exact List.mem_cons_of_mem _ (ih h)

/-! ### cancelRelease lemmas -/

theorem cancelRelease_sublist (k : String) (q : List QueueTask) :
    (cancelRelease k q).Sublist q := by
  induction q with
  | nil => simp [cancelRelease]
  | cons t ts ih =>
    by_cases h : t.type = TaskType.release ∧ t.fileKey = k
    · rw [cancelRelease, if_pos h]
      exact List.sublist_cons_self t ts
    · rw [cancelRelease, if_neg h]
      exact ih.cons₂ t

theorem mem_cancelRelease (k : String) (t : QueueTask) (q : List QueueTask)
    (h : t ∈ cancelRelease k q) : t ∈ q :=
  (cancelRelease_sublist k q).mem h

/-- When the first release task for k in the queue is rel, the scan removes
exactly it. -/
theorem cancelRelease_eq_of_first (k : String) (q₁ q₂ : List QueueTask)
    (rel : QueueTask) (hrel : rel.type = TaskType.release ∧ rel.fileKey = k)
    (hfirst : ∀ t ∈ q₁, ¬(t.type = TaskType.release ∧ t.fileKey = k)) :
    cancelRelease k (q₁ ++ rel :: q₂) = q₁ ++ q₂ := by
  induction q₁ with
  | nil => simp [cancelRelease, hrel]
  | cons t ts ih =>
    have ht : ¬(t.type = TaskType.release ∧ t.fileKey = k) :=
      hfirst t (List.mem_cons_self t ts)
    simp [cancelRelease, ht]
    exact ih fun u hu => hfirst u (List.mem_cons_of_mem t hu)

/-- When no queued release task matches, the scan leaves the queue alone. -/
theorem cancelRelease_eq_of_none (k : String) (q : List QueueTask)
    (h : ∀ t ∈ q, ¬(t.type = TaskType.release ∧ t.fileKey = k)) :
    cancelRelease k q = q := by
  induction q with
  | nil => rfl
  | cons t ts ih =>
    simp [cancelRelease, h t (List.mem_cons_self t ts)]
    exact ih fun u hu => h u (List.mem_cons_of_mem t hu)

/-! ### Characterizations of the composite steps -/

theorem maybeProcess_cases (s : MgrState) :
    (s.isProcessingQueue = true ∧ maybeProcess s = s) ∨
      (s.isProcessingQueue = false ∧
        maybeProcess s = startNext { s with isProcessingQueue := true }) := by
  by_cases hq : s.isProcessingQueue
  · exact Or.inl ⟨hq, by rw [maybeProcess, if_pos hq]⟩
  · exact Or.inr ⟨by simpa using hq, by rw [maybeProcess, if_neg hq]⟩

/-- The findIndex-and-splice either misses (no queued release for the key)
or removes exactly one queued release task for the key. -/
theorem cancelRelease_cases (k : String) (q : List QueueTask) :
    cancelRelease k q = q ∨
      ∃ rel : QueueTask, rel.type = TaskType.release ∧ rel.fileKey = k ∧
        q.Perm (rel :: cancelRelease k q) := by
  induction q with
  | nil => exact Or.inl rfl
  | cons t ts ih =>
    by_cases h : t.type = TaskType.release ∧ t.fileKey = k
    · refine Or.inr ⟨t, h.1, h.2, ?_⟩
      rw [cancelRelease, if_pos h]
    · rw [cancelRelease, if_neg h]
      rcases ih with he | ⟨rel, h1, h2, hp⟩
      · rw [he]
        exact Or.inl rfl
      · refine Or.inr ⟨rel, h1, h2, ?_⟩
        exact (hp.cons t).trans (List.Perm.swap rel t _)

/-- The three shapes a sendRequest step can take: join an in-flight load,
create and enqueue a fresh load task while registering its promise, or
enqueue a release or other task. -/
theorem submitStep_fst_cases (cfg : Cfg) (ep : String) (pl : Payload) (s : MgrState) :
    (submitStep cfg ep pl s).1 =
        { s with requestQueue := cancelRelease (getFileKey cfg pl.file_path) s.requestQueue }
    ∨ (∃ t : QueueTask, ∃ s1 : MgrState, t.pid = s.nextPromiseId ∧
        s1 = enqueueTask t
          { s with requestQueue := cancelRelease (getFileKey cfg pl.file_path) s.requestQueue } ∧
        (submitStep cfg ep pl s).1 =
          { s1 with loadingPromises :=
              mapSet (requestKeyFor cfg ep pl) s.nextPromiseId s1.loadingPromises })
    ∨ (∃ t : QueueTask, t.pid = s.nextPromiseId ∧
        (submitStep cfg ep pl s).1 = enqueueTask t s) := by
  simp only [submitStep]
  by_cases hl : ep = "/load"
  · simp only [hl, if_true, eq_self_iff_true, if_pos]
    cases hm : mapLookup (requestKeyFor cfg "/load" pl) s.loadingPromises with
    | some p => exact Or.inl rfl
    | none => exact Or.inr (Or.inl ⟨_, _, rfl, rfl, rfl⟩)
  · rw [if_neg hl]
    exact Or.inr (Or.inr ⟨_, rfl, rfl⟩)

/-- For a /load request only the join shape and the fresh-task shape can
occur. -/
theorem submitStep_load_fst_cases (cfg : Cfg) (pl : Payload) (s : MgrState) :
    (submitStep cfg "/load" pl s).1 =
        { s with requestQueue := cancelRelease (getFileKey cfg pl.file_path) s.requestQueue }
    ∨ (∃ t : QueueTask, ∃ s1 : MgrState, t.pid = s.nextPromiseId ∧
        s1 = enqueueTask t
          { s with requestQueue := cancelRelease (getFileKey cfg pl.file_path) s.requestQueue } ∧
        (submitStep cfg "/load" pl s).1 =
          { s1 with loadingPromises :=
              mapSet (requestKeyFor cfg "/load" pl) s.nextPromiseId s1.loadingPromises }) := by
  simp only [submitStep, if_true, eq_self_iff_true, if_pos]
  cases hm : mapLookup (requestKeyFor cfg "/load" pl) s.loadingPromises with
  | some p => exact Or.inl rfl
  | none => exact Or.inr ⟨_, _, rfl, rfl, rfl⟩

/-! ### Dead promises stay dead

A promise id that is no longer carried by any queued or running task, and is
older than the id counter, can never be started or settled by any later
event: tasks only start from the queue, and only the running task settles
its promise. -/

def NotInSystem (p : Nat) (s : MgrState) : Prop :=
  p ∉ queuePids s ∧ (∀ t, s.running = some t → t.pid ≠ p) ∧ p < s.nextPromiseId

/-- A dead promise: absent from the system and from the started and settled
histories. -/
def Dead (p : Nat) (s : MgrState) : Prop :=
  NotInSystem p s ∧ p ∉ s.startedIds ∧ p ∉ settledPids s

theorem mem_settledPids_settleOnce (p q : Nat) (o : TaskOutcome)
    (l : List (Nat × TaskOutcome))
    (h : p ∈ (settleOnce q o l).map Prod.fst) : p ∈ l.map Prod.fst ∨ p = q := by
  by_cases hm : q ∈ l.map Prod.fst
  · rw [settleOnce, if_pos hm] at h
    exact Or.inl h
  · rw [settleOnce, if_neg hm, List.map_append] at h
    rcases List.mem_append.mp h with h | h
    · exact Or.inl h
    · simp at h
      exact Or.inr h

theorem dead_startNext (p : Nat) (s : MgrState) (h : Dead p s) : Dead p (startNext s) := by
  obtain ⟨⟨hq, hr, hn⟩, hst, hse⟩ := h
  cases hqe : s.requestQueue with
  | nil =>
    cases hpe : s.pendingPythonPath with
    | none =>
      exact ⟨⟨by simp [startNext, hqe, hpe, queuePids],
        by simp [startNext, hqe, hpe], by simp [startNext, hqe, hpe, hn]⟩,
        by simpa [startNext, hqe, hpe] using hst,
        by simpa [startNext, hqe, hpe, settledPids] using hse⟩
    | some v =>
      exact ⟨⟨by simp [startNext, hqe, hpe, restartServer, queuePids],
        by simp [startNext, hqe, hpe, restartServer],
        by simp [startNext, hqe, hpe, restartServer, hn]⟩,
        by simpa [startNext, hqe, hpe, restartServer] using hst,
        by simpa [startNext, hqe, hpe, restartServer, settledPids] using hse⟩
  | cons t rest =>
    have hqp : t.pid ∉ ({p} : Set Nat) ∧ p ∉ rest.map QueueTask.pid := by
      constructor
      · intro he
        exact hq (by simp [queuePids, hqe, Set.mem_singleton_iff.mp he])
      · intro he
        exact hq (by simp [queuePids, hqe, he])
    refine ⟨⟨?_, ?_, ?_⟩, ?_, ?_⟩
    · simpa [startNext, hqe, queuePids] using hqp.2
    · intro u hu
      simp [startNext, hqe] at hu
      intro hp
      exact hqp.1 (by simp [hu, hp])
    · simpa [startNext, hqe] using hn
    · simp [startNext, hqe]
      refine ⟨hst, ?_⟩
      intro hp
      exact hqp.1 (by simp [hp])
    · simpa [startNext, hqe, settledPids] using hse

theorem dead_maybeProcess (p : Nat) (s : MgrState) (h : Dead p s) :
    Dead p (maybeProcess s) := by
  by_cases hp : s.isProcessingQueue
  · simpa [maybeProcess, hp] using h
  · simp only [maybeProcess, hp, if_neg, Bool.false_eq_true, if_false]
    apply dead_startNext
    obtain ⟨⟨hq, hr, hn⟩, hst, hse⟩ := h
    exact ⟨⟨hq, hr, hn⟩, hst, hse⟩

theorem dead_enqueueTask (p : Nat) (s : MgrState) (t : QueueTask)
    (htp : t.pid ≠ p) (h : Dead p s) : Dead p (enqueueTask t s) := by
  obtain ⟨⟨hq, hr, hn⟩, hst, hse⟩ := h
  apply dead_maybeProcess
  refine ⟨⟨?_, ?_, ?_⟩, ?_, ?_⟩
  · simp [queuePids, pushTask] at hq ⊢
    exact ⟨hq, fun he => htp he.symm⟩
  · exact hr
  · exact Nat.lt_succ_of_lt hn
  · exact hst
  · exact hse

theorem dead_restartServer (p : Nat) (s : MgrState) (v : String) (h : Dead p s) :
    Dead p (restartServer v s) := by
  obtain ⟨⟨hq, hr, hn⟩, hst, hse⟩ := h
  exact ⟨⟨by simp [restartServer, queuePids], hr, hn⟩, hst,
    by simpa [restartServer, settledPids] using hse⟩

theorem dead_step (cfg : Cfg) (p : Nat) (s : MgrState) (e : Event)
    (h : Dead p s) : Dead p (step cfg s e) := by
  obtain ⟨⟨hq, hr, hn⟩, hst, hse⟩ := h
  cases e with
  | submit ep pl =>
    have hq0 : Dead p { s with
        requestQueue := cancelRelease (getFileKey cfg pl.file_path) s.requestQueue } := by
      refine ⟨⟨?_, hr, hn⟩, hst, hse⟩
      intro hx
      simp only [queuePids, List.mem_map] at hx
      obtain ⟨u, hu, hup⟩ := hx
      exact hq (by
        simp only [queuePids, List.mem_map]
        exact ⟨u, mem_cancelRelease _ u _ hu, hup⟩)
    simp only [step, submitStep]
    by_cases hl : ep = "/load"
    · simp only [hl, if_pos rfl]
      cases hm : mapLookup (requestKeyFor cfg "/load" pl) s.loadingPromises with
      | some v => simpa [hm] using hq0
      | none =>
        simp only [hm]
        have := dead_enqueueTask p _
          { type := TaskType.load, fileKey := getFileKey cfg pl.file_path,
            requestKey := requestKeyFor cfg "/load" pl, pid := s.nextPromiseId }
          (by simpa using Nat.ne_of_gt hn) hq0
        obtain ⟨⟨hq2, hr2, hn2⟩, hst2, hse2⟩ := this
        exact ⟨⟨hq2, hr2, hn2⟩, hst2, hse2⟩
    · simp only [if_neg hl]
      have := dead_enqueueTask p s
        { type := taskTypeFor ep, fileKey := getFileKey cfg pl.file_path,
          requestKey := requestKeyFor cfg ep pl, pid := s.nextPromiseId }
        (by simpa using Nat.ne_of_gt hn) ⟨⟨hq, hr, hn⟩, hst, hse⟩
      exact this
  | complete o =>
    cases hrn : s.running with
    | none => simpa [step, completeStep, hrn] using ⟨⟨hq, hr, hn⟩, hst, hse⟩
    | some t =>
      simp only [step, completeStep, hrn]
      apply dead_startNext
      refine ⟨⟨hq, by simp, hn⟩, hst, ?_⟩
      simp only [settledPids]
      intro hx
      rcases mem_settledPids_settleOnce p t.pid o s.settled hx with hx | hx
      · exact hse hx
      · exact hr t hrn hx.symm
  | close c =>
    exact ⟨⟨by simp [step, closeStep, queuePids], hr, hn⟩, hst,
      by simpa [step, closeStep, settledPids] using hse⟩
  | change np =>
    simp only [step, changeStep]
    have hbody : Dead p (changeBody np s) := by
      by_cases hb : s.isProcessingQueue = true ∨ s.requestQueue ≠ []
      · simpa [changeBody, hb] using ⟨⟨hq, hr, hn⟩, hst, hse⟩
      · simpa [changeBody, hb] using
          dead_restartServer p s np ⟨⟨hq, hr, hn⟩, hst, hse⟩
    cases hc : s.currentPythonPath with
    | none => simpa using hbody
    | some cur =>
      by_cases hg : cfg.norm np = cfg.norm cur ∧ s.serverAlive = true
      · simpa [hg] using ⟨⟨hq, hr, hn⟩, hst, hse⟩
      · simpa [hg] using hbody
  | spawn => exact ⟨⟨hq, hr, hn⟩, hst, hse⟩
  | serverStarted v => exact ⟨⟨hq, hr, hn⟩, hst, hse⟩

theorem dead_run (cfg : Cfg) (p : Nat) (s : MgrState) (es : List Event)
    (h : Dead p s) : Dead p (run cfg s es) := by
  induction es generalizing s with
  | nil => exact h
  | cons e es ih => exact ih _ (dead_step cfg p s e h)

/-- Being dead only depends on a few fields of the state. -/
theorem dead_eqFields (p : Nat) (s₁ s₂ : MgrState)
    (h1 : s₁.requestQueue = s₂.requestQueue) (h2 : s₁.running = s₂.running)
    (h3 : s₁.nextPromiseId = s₂.nextPromiseId) (h4 : s₁.startedIds = s₂.startedIds)
    (h5 : s₁.settled = s₂.settled) (h : Dead p s₂) : Dead p s₁ := by
  obtain ⟨⟨hq, hr, hn⟩, hst, hse⟩ := h
  refine ⟨⟨?_, ?_, ?_⟩, ?_, ?_⟩
  · rw [queuePids, h1]
    exact hq
  · intro t ht
    exact hr t (h2 ▸ ht)
  · rw [h3]
    exact hn
  · rw [h4]
    exact hst
  · rw [settledPids, h5]
    exact hse

/-! ### Well-formed states

The in-flight map is coherent with the tasks that are queued or running:
every entry points at a live load task with that request key, every live
load task is registered under its key, live promise ids are distinct and
below the id counter.  These facts hold along any close-free execution and
drive the deduplication proof. -/

theorem mapLookup_mapErase_self (k : String) (m : List (String × Nat)) :
    mapLookup k (mapErase k m) = none := by
  induction m with
  | nil => rfl
  | cons e rest ih =>
    by_cases he : e.1 = k
    · simpa [mapErase, he] using ih
    · simpa [mapErase, he, mapLookup, he] using ih

/-- The tasks currently queued or running. -/
def liveTasks (s : MgrState) : List QueueTask :=
  s.requestQueue ++ s.running.toList

/-- Coherence of a live task list with the in-flight map, the id counter
and the completed history. -/
def MapOk (live : List QueueTask) (m : List (String × Nat)) (n : Nat)
    (c : List Nat) : Prop :=
  (∀ k p, mapLookup k m = some p →
    ∃ t ∈ live, t.pid = p ∧ t.requestKey = k ∧ t.type = TaskType.load)
  ∧ (∀ t ∈ live, t.type = TaskType.load → mapLookup t.requestKey m = some t.pid)
  ∧ (∀ q ∈ live.map QueueTask.pid, q < n)
  ∧ (∀ q ∈ c, q < n)
  ∧ (live.map QueueTask.pid).Nodup

theorem mapOk_perm (live₁ live₂ : List QueueTask) (m : List (String × Nat))
    (n : Nat) (c : List Nat) (hp : live₁.Perm live₂) (h : MapOk live₁ m n c) :
    MapOk live₂ m n c := by
  obtain ⟨w1, w5, w6a, w6c, w7⟩ := h
  refine ⟨?_, ?_, ?_, w6c, ?_⟩
  · intro k p hk
    obtain ⟨t, ht, hh⟩ := w1 k p hk
    exact ⟨t, hp.mem_iff.mp ht, hh⟩
  · intro t ht hl
    exact w5 t (hp.mem_iff.mpr ht) hl
  · intro q hq
    exact w6a q ((hp.map QueueTask.pid).mem_iff.mpr hq)
  · exact ((hp.map QueueTask.pid).nodup_iff).mp w7

theorem mapOk_removeRelease (rel : QueueTask) (live : List QueueTask)
    (m : List (String × Nat)) (n : Nat) (c : List Nat)
    (hrel : rel.type = TaskType.release)
    (h : MapOk (rel :: live) m n c) : MapOk live m n c := by
  obtain ⟨w1, w5, w6a, w6c, w7⟩ := h
  refine ⟨?_, ?_, ?_, w6c, ?_⟩
  · intro k p hk
    obtain ⟨t, ht, h1, h2, h3⟩ := w1 k p hk
    rcases List.mem_cons.mp ht with he | he
    · rw [he] at h3
      rw [h3] at hrel
      exact absurd hrel (by simp)
    · exact ⟨t, he, h1, h2, h3⟩
  · intro t ht hl
    exact w5 t (List.mem_cons_of_mem rel ht) hl
  · intro q hq
    exact w6a q (by simpa using Or.inr hq)
  · exact (List.nodup_cons.mp (by simpa using w7)).2

theorem mapOk_addLoad (t : QueueTask) (live : List QueueTask)
    (m : List (String × Nat)) (n : Nat) (c : List Nat)
    (ht : t.type = TaskType.load) (hpid : t.pid = n)
    (hkey : mapLookup t.requestKey m = none)
    (h : MapOk live m n c) :
    MapOk (t :: live) (mapSet t.requestKey t.pid m) (n + 1) c := by
  obtain ⟨w1, w5, w6a, w6c, w7⟩ := h
  refine ⟨?_, ?_, ?_, ?_, ?_⟩
  · intro k p hk
    by_cases hkk : k = t.requestKey
    · rw [hkk, mapLookup_mapSet_self] at hk
      exact ⟨t, List.mem_cons_self t live, Option.some.inj hk, hkk.symm, ht⟩
    · rw [mapLookup_mapSet_ne _ _ _ _ hkk] at hk
      obtain ⟨u, hu, hh⟩ := w1 k p hk
      exact ⟨u, List.mem_cons_of_mem t hu, hh⟩
  · intro u hu hl
    rcases List.mem_cons.mp hu with he | he
    · rw [he, mapLookup_mapSet_self]
    · by_cases hkk : u.requestKey = t.requestKey
      · have := w5 u he hl
        rw [hkk, hkey] at this
        exact absurd this (by simp)
      · rw [mapLookup_mapSet_ne _ _ _ _ hkk]
        exact w5 u he hl
  · intro q hq
    rw [List.map_cons] at hq
    rcases List.mem_cons.mp hq with he | he
    · rw [he, hpid]
      exact Nat.lt_succ_self n
    · exact Nat.lt_succ_of_lt (w6a q he)
  · intro q hq
    exact Nat.lt_succ_of_lt (w6c q hq)
  · rw [List.map_cons, List.nodup_cons]
    refine ⟨?_, w7⟩
    intro hmem
    have := w6a t.pid hmem
    rw [hpid] at this
    exact absurd this (by simp)

theorem mapOk_addNonLoad (t : QueueTask) (live : List QueueTask)
    (m : List (String × Nat)) (n : Nat) (c : List Nat)
    (ht : ¬t.type = TaskType.load) (hpid : t.pid = n)
    (h : MapOk live m n c) : MapOk (t :: live) m (n + 1) c := by
  obtain ⟨w1, w5, w6a, w6c, w7⟩ := h
  refine ⟨?_, ?_, ?_, ?_, ?_⟩
  · intro k p hk
    obtain ⟨u, hu, hh⟩ := w1 k p hk
    exact ⟨u, List.mem_cons_of_mem t hu, hh⟩
  · intro u hu hl
    rcases List.mem_cons.mp hu with he | he
    · rw [he] at hl
      exact absurd hl ht
    · exact w5 u he hl
  · intro q hq
    rw [List.map_cons] at hq
    rcases List.mem_cons.mp hq with he | he
    · rw [he, hpid]
      exact Nat.lt_succ_self n
    · exact Nat.lt_succ_of_lt (w6a q he)
  · intro q hq
    exact Nat.lt_succ_of_lt (w6c q hq)
  · rw [List.map_cons, List.nodup_cons]
    refine ⟨?_, w7⟩
    intro hmem
    have := w6a t.pid hmem
    rw [hpid] at this
    exact absurd this (by simp)

/-- Completing the task at the end of the live list (the running task):
its map entry is erased when it is a load, and its promise id joins the
completed history. -/
theorem mapOk_complete (t : QueueTask) (live : List QueueTask)
    (m : List (String × Nat)) (n : Nat) (c : List Nat)
    (h : MapOk (live ++ [t]) m n c) :
    MapOk live
      (if t.type = TaskType.load then mapErase t.requestKey m else m) n
      (c ++ [t.pid]) := by
  obtain ⟨w1, w5, w6a, w6c, w7⟩ := h
  have htpid : t.pid < n := w6a t.pid (by simp)
  have hnodup : t.pid ∉ live.map QueueTask.pid := by
    have := w7
    rw [List.map_append, List.map_cons, List.map_nil] at this
    intro hmem
    rcases List.nodup_append.mp this with ⟨h1, h2, h3⟩
    exact h3 hmem (by simp)
  refine ⟨?_, ?_, ?_, ?_, ?_⟩
  · intro k p hk
    by_cases hl : t.type = TaskType.load
    · rw [if_pos hl] at hk
      by_cases hkk : k = t.requestKey
      · rw [hkk, mapLookup_mapErase_self] at hk
        exact absurd hk (by simp)
      · rw [mapLookup_mapErase_ne _ _ _ hkk] at hk
        obtain ⟨u, hu, h1, h2, h3⟩ := w1 k p hk
        rcases List.mem_append.mp hu with he | he
        · exact ⟨u, he, h1, h2, h3⟩
        · rw [List.mem_singleton.mp he] at h2
          exact absurd h2.symm hkk
    · rw [if_neg hl] at hk
      obtain ⟨u, hu, h1, h2, h3⟩ := w1 k p hk
      rcases List.mem_append.mp hu with he | he
      · exact ⟨u, he, h1, h2, h3⟩
      · rw [List.mem_singleton.mp he] at h3
        exact absurd h3 hl
  · intro u hu hl
    by_cases hlt : t.type = TaskType.load
    · rw [if_pos hlt]
      by_cases hkk : u.requestKey = t.requestKey
      · have h1 := w5 u (List.mem_append_left _ hu) hl
        have h2 := w5 t (List.mem_append_right _ (by simp)) hlt
        rw [hkk, h2] at h1
        have : u.pid = t.pid := (Option.some.inj h1).symm
        exact absurd (this ▸ List.mem_map_of_mem QueueTask.pid hu) hnodup
      · rw [mapLookup_mapErase_ne _ _ _ hkk]
        exact w5 u (List.mem_append_left _ hu) hl
    · rw [if_neg hlt]
      exact w5 u (List.mem_append_left _ hu) hl
  · intro q hq
    exact w6a q (by rw [List.map_append]; exact List.mem_append_left _ hq)
  · intro q hq
    rcases List.mem_append.mp hq with he | he
    · exact w6c q he
    · rw [List.mem_singleton.mp he]
      exact htpid
  · have := w7
    rw [List.map_append] at this
    exact (List.nodup_append.mp this).1

/-! ### FIFO discipline

The started history followed by the still-queued promise ids is always a
sublist of the enqueue history: tasks leave the queue only at its head, so
the order in which run actions start respects submission order even when
release tasks are spliced out or the queue is dropped. -/

def fifoInv (s : MgrState) : Prop :=
  (s.startedIds ++ queuePids s).Sublist s.submittedIds

theorem fifoInv_startNext (s : MgrState) (h : fifoInv s) : fifoInv (startNext s) := by
  unfold fifoInv at h ⊢
  cases hqe : s.requestQueue with
  | nil =>
    have h0 : s.startedIds.Sublist s.submittedIds := by
      simpa [queuePids, hqe] using h
    cases hpe : s.pendingPythonPath with
    | none => simpa [startNext, hqe, hpe, queuePids] using h0
    | some v => simpa [startNext, hqe, hpe, restartServer, queuePids] using h0
  | cons t rest =>
    have h0 : (s.startedIds ++ t.pid :: rest.map QueueTask.pid).Sublist s.submittedIds := by
      simpa [queuePids, hqe] using h
    simpa [startNext, hqe, queuePids] using h0

theorem fifoInv_maybeProcess (s : MgrState) (h : fifoInv s) : fifoInv (maybeProcess s) := by
  by_cases hp : s.isProcessingQueue
  · simpa [maybeProcess, hp] using h
  · simp only [maybeProcess, hp, Bool.false_eq_true, if_false]
    exact fifoInv_startNext _ h

theorem fifoInv_step (cfg : Cfg) (s : MgrState) (e : Event)
    (h : fifoInv s) : fifoInv (step cfg s e) := by
  cases e with
  | submit ep pl =>
    have hsplice : fifoInv { s with
        requestQueue := cancelRelease (getFileKey cfg pl.file_path) s.requestQueue } := by
      unfold fifoInv at h ⊢
      refine List.Sublist.trans ?_ h
      simp only [queuePids]
      exact ((cancelRelease_sublist _ _).map _).append_left _
    have henq : ∀ s' : MgrState, ∀ t : QueueTask, fifoInv s' →
        fifoInv (enqueueTask t s') := by
      intro s' t h'
      apply fifoInv_maybeProcess
      unfold fifoInv at h' ⊢
      have := h'.append (List.Sublist.refl [t.pid])
      simpa [pushTask, queuePids, List.append_assoc] using this
    simp only [step, submitStep]
    by_cases hl : ep = "/load"
    · simp only [hl, if_pos rfl]
      cases hm : mapLookup (requestKeyFor cfg "/load" pl) s.loadingPromises with
      | some v => simpa [hm] using hsplice
      | none =>
        simp only [hm]
        exact henq _ _ hsplice
    · simp only [if_neg hl]
      exact henq s _ h
  | complete o =>
    cases hrn : s.running with
    | none => simpa [step, completeStep, hrn] using h
    | some t =>
      simp only [step, completeStep, hrn]
      exact fifoInv_startNext _ h
  | close c =>
    unfold fifoInv at h ⊢
    simp only [step, closeStep, queuePids, List.map_nil, List.append_nil]
    exact (List.sublist_append_left _ _).trans h
  | change np =>
    have hbody : fifoInv (changeBody np s) := by
      by_cases hb : s.isProcessingQueue = true ∨ s.requestQueue ≠ []
      · simpa [changeBody, hb] using h
      · unfold fifoInv at h ⊢
        simp only [changeBody, hb, if_neg, restartServer, queuePids, List.map_nil,
          List.append_nil, if_false]
        exact (List.sublist_append_left _ _).trans h
    simp only [step, changeStep]
    cases hc : s.currentPythonPath with
    | none => simpa using hbody
    | some cur =>
      by_cases hg : cfg.norm np = cfg.norm cur ∧ s.serverAlive = true
      · simpa [hg] using h
      · simpa [hg] using hbody
  | spawn => exact h
  | serverStarted v => exact h

theorem fifoInv_run (cfg : Cfg) (s : MgrState) (es : List Event)
    (h : fifoInv s) : fifoInv (run cfg s es) := by
  induction es generalizing s with
  | nil => exact h
  | cons e es ih => exact ih _ (fifoInv_step cfg s e h)

theorem fifoInv_init : fifoInv initState := by
  simp [fifoInv, initState, queuePids]

/-! ### Idle implies nothing running -/

def idleNoRun (s : MgrState) : Prop :=
  s.isProcessingQueue = false → s.running = none

theorem idleNoRun_startNext (s : MgrState) : idleNoRun (startNext s) := by
  intro hp
  cases hqe : s.requestQueue with
  | nil =>
    cases hpe : s.pendingPythonPath with
    | none => simp [startNext, hqe, hpe]
    | some v => simp [startNext, hqe, hpe, restartServer]
  | cons t rest => simp [startNext, hqe] at hp

theorem idleNoRun_step (cfg : Cfg) (s : MgrState) (e : Event)
    (h : idleNoRun s) : idleNoRun (step cfg s e) := by
  cases e with
  | submit ep pl =>
    have htr : ∀ s₁ s₂ : MgrState, s₁.isProcessingQueue = s₂.isProcessingQueue →
        s₁.running = s₂.running → idleNoRun s₂ → idleNoRun s₁ := by
      intro s₁ s₂ hp hr h' hx
      rw [hr]
      exact h' (hp ▸ hx)
    have hmp : ∀ s' : MgrState, idleNoRun s' → idleNoRun (maybeProcess s') := by
      intro s' h'
      rcases maybeProcess_cases s' with ⟨_, he⟩ | ⟨_, he⟩
      · rw [he]
        exact h'
      · rw [he]
        exact idleNoRun_startNext _
    have henq : ∀ s' : MgrState, ∀ t : QueueTask, idleNoRun s' →
        idleNoRun (enqueueTask t s') := by
      intro s' t h'
      rw [enqueueTask]
      exact hmp _ (htr _ s' rfl rfl h')
    show idleNoRun ((submitStep cfg ep pl s).1)
    rcases submitStep_fst_cases cfg ep pl s with he | ⟨t, s1, hpid, hs1, he⟩ | ⟨t, hpid, he⟩
    · rw [he]
      exact htr _ s rfl rfl h
    · rw [he]
      refine htr _ s1 rfl rfl ?_
      rw [hs1]
      exact henq _ t (htr _ s rfl rfl h)
    · rw [he]
      exact henq s t h
  | complete o =>
    cases hrn : s.running with
    | none =>
      intro hp
      simp only [step, completeStep, hrn] at hp ⊢
    | some t =>
      simp only [step, completeStep, hrn]
      exact idleNoRun_startNext _
  | close c =>
    intro hp
    simpa [step, closeStep] using h (by simpa [step, closeStep] using hp)
  | change np =>
    have hbody : idleNoRun (changeBody np s) := by
      intro hp
      by_cases hb : s.isProcessingQueue = true ∨ s.requestQueue ≠ []
      · simpa [changeBody, hb] using h (by simpa [changeBody, hb] using hp)
      · simpa [changeBody, hb, restartServer] using
          h (by simpa [changeBody, hb, restartServer] using hp)
    simp only [step, changeStep]
    cases hc : s.currentPythonPath with
    | none => simpa using hbody
    | some cur =>
      by_cases hg : cfg.norm np = cfg.norm cur ∧ s.serverAlive = true
      · simpa [hg] using h
      · simpa [hg] using hbody
  | spawn =>
    intro hp
    simpa [step] using h (by simpa [step] using hp)
  | serverStarted v =>
    intro hp
    simpa [step] using h (by simpa [step] using hp)

theorem idleNoRun_run (cfg : Cfg) (s : MgrState) (es : List Event)
    (h : idleNoRun s) : idleNoRun (run cfg s es) := by
  induction es generalizing s with
  | nil => exact h
  | cons e es ih => exact ih _ (idleNoRun_step cfg s e h)

/-! ### The changePythonInterpreter guard -/

/-- The guard of changePythonInterpreter: the normalized target equals the
normalized current interpreter and a server process is live. -/
def sameEnvAlive (cfg : Cfg) (p : String) (s : MgrState) : Bool :=
  match s.currentPythonPath with
  | some cur => (cfg.norm p == cfg.norm cur) && s.serverAlive
  | none => false

theorem changeStep_of_guard_true (cfg : Cfg) (p : String) (s : MgrState)
    (h : sameEnvAlive cfg p s = true) : changeStep cfg p s = s := by
  cases hc : s.currentPythonPath with
  | none => rw [sameEnvAlive, hc] at h; exact absurd h (by simp)
  | some cur =>
    rw [sameEnvAlive, hc] at h
    have h' : (cfg.norm p == cfg.norm cur && s.serverAlive) = true := h
    rw [changeStep, hc]
    show (if cfg.norm p = cfg.norm cur ∧ s.serverAlive = true then s else changeBody p s) = s
    rcases Bool.and_eq_true_iff.mp h' with ⟨h1, h2⟩
    exact if_pos ⟨by simpa using h1, h2⟩

theorem changeStep_of_guard_false (cfg : Cfg) (p : String) (s : MgrState)
    (h : sameEnvAlive cfg p s = false) : changeStep cfg p s = changeBody p s := by
  cases hc : s.currentPythonPath with
  | none => rw [changeStep, hc]
  | some cur =>
    rw [sameEnvAlive, hc] at h
    have h' : (cfg.norm p == cfg.norm cur && s.serverAlive) = false := h
    rw [changeStep, hc]
    show (if cfg.norm p = cfg.norm cur ∧ s.serverAlive = true then s else changeBody p s) =
      changeBody p s
    apply if_neg
    intro hg
    rw [Bool.and_eq_true_iff.mpr ⟨by simpa using hg.1, hg.2⟩] at h'
    exact absurd h' (by simp)

/-! ### Well-formedness of reachable close-free states -/

theorem liveTasks_startNext_cons (x : MgrState) (a : QueueTask) (as : List QueueTask)
    (hq : x.requestQueue = a :: as) : liveTasks (startNext x) = as ++ [a] := by
  simp [startNext, hq, liveTasks]

theorem startNext_append_singleton_perm (x : MgrState) (t : QueueTask)
    (q : List QueueTask) (hq : x.requestQueue = q ++ [t]) :
    (liveTasks (startNext x)).Perm (t :: q) := by
  cases q with
  | nil =>
    rw [liveTasks_startNext_cons x t [] (by simpa using hq)]
    exact List.Perm.refl _
  | cons u us =>
    rw [liveTasks_startNext_cons x u (us ++ [t]) (by simpa using hq)]
    exact ((List.perm_append_singleton t us).append_right [u]).trans
      ((List.perm_append_singleton u us).cons t)

theorem startNext_cons_fields (x : MgrState) (a : QueueTask) (as : List QueueTask)
    (hq : x.requestQueue = a :: as) :
    (startNext x).loadingPromises = x.loadingPromises
    ∧ (startNext x).nextPromiseId = x.nextPromiseId
    ∧ (startNext x).completedIds = x.completedIds
    ∧ (startNext x).isProcessingQueue = true := by
  refine ⟨?_, ?_, ?_, ?_⟩ <;> simp [startNext, hq]

/-- Pushing a task and triggering the queue processor: the live tasks gain
exactly the new task (up to order), the map, the completed history are
untouched, the id counter advances, and idleness still implies no running
task. -/
theorem enqueueTask_char (t : QueueTask) (s : MgrState) (h3 : idleNoRun s) :
    (liveTasks (enqueueTask t s)).Perm (t :: liveTasks s)
    ∧ (enqueueTask t s).loadingPromises = s.loadingPromises
    ∧ (enqueueTask t s).nextPromiseId = s.nextPromiseId + 1
    ∧ (enqueueTask t s).completedIds = s.completedIds
    ∧ idleNoRun (enqueueTask t s) := by
  rw [enqueueTask]
  rcases maybeProcess_cases (pushTask t s) with ⟨hf, he⟩ | ⟨hf, he⟩
  · rw [he]
    refine ⟨?_, rfl, rfl, rfl, ?_⟩
    · show ((s.requestQueue ++ [t]) ++ s.running.toList).Perm
        (t :: (s.requestQueue ++ s.running.toList))
      rw [List.append_assoc]
      exact List.perm_middle
    · intro hx
      rw [hx] at hf
      exact absurd hf (by simp)
  · have hrn : s.running = none := h3 hf
    rw [he]
    have hq : ({ pushTask t s with isProcessingQueue := true } : MgrState).requestQueue =
        s.requestQueue ++ [t] := rfl
    have hlv : liveTasks s = s.requestQueue := by
      rw [liveTasks, hrn]
      simp
    have hfl : (startNext ({ pushTask t s with isProcessingQueue := true } :
          MgrState)).loadingPromises = s.loadingPromises
        ∧ (startNext ({ pushTask t s with isProcessingQueue := true } :
            MgrState)).nextPromiseId = s.nextPromiseId + 1
        ∧ (startNext ({ pushTask t s with isProcessingQueue := true } :
            MgrState)).completedIds = s.completedIds := by
      cases hqe : s.requestQueue with
      | nil =>
        have h4 := startNext_cons_fields
          ({ pushTask t s with isProcessingQueue := true } : MgrState) t []
          (by rw [hq, hqe]; rfl)
        exact ⟨h4.1, h4.2.1, h4.2.2.1⟩
      | cons u us =>
        have h4 := startNext_cons_fields
          ({ pushTask t s with isProcessingQueue := true } : MgrState) u (us ++ [t])
          (by rw [hq, hqe]; rfl)
        exact ⟨h4.1, h4.2.1, h4.2.2.1⟩
    refine ⟨?_, hfl.1, hfl.2.1, hfl.2.2, idleNoRun_startNext _⟩
    refine (startNext_append_singleton_perm _ t s.requestQueue hq).trans ?_
    rw [hlv]

/-- A close-free reachable state is well formed: the in-flight map and the
live tasks are coherent, and idleness implies no running task. -/
def WF (s : MgrState) : Prop :=
  MapOk (liveTasks s) s.loadingPromises s.nextPromiseId s.completedIds ∧ idleNoRun s

/-- Full characterization of a /load submission, with the in-flight lookup
outcome and the returned promise. -/
theorem submitStep_load_pair_cases (cfg : Cfg) (pl : Payload) (s : MgrState) :
    (∃ p, mapLookup (requestKeyFor cfg "/load" pl) s.loadingPromises = some p ∧
      submitStep cfg "/load" pl s =
        ({ s with requestQueue := cancelRelease (getFileKey cfg pl.file_path) s.requestQueue },
         p))
    ∨ (mapLookup (requestKeyFor cfg "/load" pl) s.loadingPromises = none ∧
      ∃ s1 : MgrState,
        s1 = enqueueTask
          { type := TaskType.load, fileKey := getFileKey cfg pl.file_path,
            requestKey := requestKeyFor cfg "/load" pl, pid := s.nextPromiseId }
          { s with requestQueue := cancelRelease (getFileKey cfg pl.file_path) s.requestQueue } ∧
        submitStep cfg "/load" pl s =
          ({ s1 with loadingPromises := mapSet (requestKeyFor cfg "/load" pl) s.nextPromiseId s1.loadingPromises },
           s.nextPromiseId)) := by
  simp only [submitStep, if_true, eq_self_iff_true, if_pos]
  cases hm : mapLookup (requestKeyFor cfg "/load" pl) s.loadingPromises with
  | some p => exact Or.inl ⟨p, rfl, rfl⟩
  | none => exact Or.inr ⟨rfl, _, rfl, rfl⟩

theorem submitStep_other (cfg : Cfg) (ep : String) (pl : Payload) (s : MgrState)
    (hl : ¬ep = "/load") :
    submitStep cfg ep pl s =
      (enqueueTask
        { type := taskTypeFor ep, fileKey := getFileKey cfg pl.file_path,
          requestKey := requestKeyFor cfg ep pl, pid := s.nextPromiseId } s,
       s.nextPromiseId) := by
  simp only [submitStep, if_neg hl]

theorem taskTypeFor_ne_load (ep : String) (hl : ¬ep = "/load") :
    ¬taskTypeFor ep = TaskType.load := by
  rw [taskTypeFor, if_neg hl]
  by_cases hr : ep = "/release"
  · rw [if_pos hr]
    simp
  · rw [if_neg hr]
    simp

theorem mapOk_empty (n : Nat) (c : List Nat) (hc : ∀ q ∈ c, q < n) :
    MapOk [] [] n c := by
  refine ⟨?_, ?_, ?_, hc, ?_⟩
  · intro k p hk
    exact absurd hk (by simp [mapLookup])
  · intro t ht
    exact absurd ht (by simp)
  · intro q hq
    exact absurd hq (by simp)
  · simp

theorem wf_startNext (x : MgrState) (hrn : x.running = none)
    (h : MapOk (liveTasks x) x.loadingPromises x.nextPromiseId x.completedIds) :
    WF (startNext x) := by
  have hc := h.2.2.2.1
  cases hqe : x.requestQueue with
  | nil =>
    cases hpe : x.pendingPythonPath with
    | none =>
      refine ⟨?_, idleNoRun_startNext _⟩
      rw [liveTasks, hrn, hqe] at h
      simp only [startNext, hqe, hpe]
      exact h
    | some v =>
      refine ⟨?_, idleNoRun_startNext _⟩
      simp only [startNext, hqe, hpe]
      exact mapOk_empty x.nextPromiseId x.completedIds hc
  | cons a as =>
    refine ⟨?_, idleNoRun_startNext _⟩
    have hff := startNext_cons_fields x a as hqe
    rw [liveTasks_startNext_cons x a as hqe, hff.1, hff.2.1, hff.2.2.1]
    rw [liveTasks, hqe, hrn] at h
    simp only [Option.toList, List.append_nil] at h
    exact mapOk_perm _ _ _ _ _ (List.perm_append_singleton a as).symm h

/-- Adding a fresh in-flight entry on top of a state whose other fields
already satisfy the coherence conditions. -/
theorem wf_setPromise (k : String) (v : Nat) (s : MgrState)
    (h : MapOk (liveTasks s) (mapSet k v s.loadingPromises) s.nextPromiseId s.completedIds)
    (h3 : idleNoRun s) :
    WF { s with loadingPromises := mapSet k v s.loadingPromises } :=
  ⟨h, fun hx => h3 hx⟩

theorem wf_submitStep (cfg : Cfg) (ep : String) (pl : Payload) (s : MgrState)
    (hwf : WF s) : WF ((submitStep cfg ep pl s).1) := by
  obtain ⟨hmo, h3⟩ := hwf
  have hs0 : MapOk
      (liveTasks { s with requestQueue := cancelRelease (getFileKey cfg pl.file_path) s.requestQueue })
      s.loadingPromises s.nextPromiseId s.completedIds := by
    rcases cancelRelease_cases (getFileKey cfg pl.file_path) s.requestQueue with
      he | ⟨rel, h1, h2, hp⟩
    · show MapOk
        (cancelRelease (getFileKey cfg pl.file_path) s.requestQueue ++ s.running.toList)
        s.loadingPromises s.nextPromiseId s.completedIds
      rw [he]
      exact hmo
    · show MapOk
        (cancelRelease (getFileKey cfg pl.file_path) s.requestQueue ++ s.running.toList)
        s.loadingPromises s.nextPromiseId s.completedIds
      refine mapOk_removeRelease rel _ _ _ _ h1 ?_
      refine mapOk_perm _ _ _ _ _ ?_ hmo
      exact hp.append_right s.running.toList
  have h30 : idleNoRun
      { s with requestQueue := cancelRelease (getFileKey cfg pl.file_path) s.requestQueue } :=
    fun hx => h3 hx
  by_cases hl : ep = "/load"
  · subst hl
    rcases submitStep_load_pair_cases cfg pl s with ⟨p, hm, he⟩ | ⟨hm, s1, hs1, he⟩
    · rw [show (submitStep cfg "/load" pl s).1 = _ from congrArg Prod.fst he]
      exact ⟨hs0, h30⟩
    · rw [show (submitStep cfg "/load" pl s).1 = _ from congrArg Prod.fst he]
      have hchar := enqueueTask_char
        { type := TaskType.load, fileKey := getFileKey cfg pl.file_path,
          requestKey := requestKeyFor cfg "/load" pl, pid := s.nextPromiseId }
        { s with requestQueue := cancelRelease (getFileKey cfg pl.file_path) s.requestQueue }
        h30
      rw [← hs1] at hchar
      have hmain : MapOk (liveTasks s1)
          (mapSet (requestKeyFor cfg "/load" pl) s.nextPromiseId s1.loadingPromises)
          s1.nextPromiseId s1.completedIds := by
        rw [hchar.2.1, hchar.2.2.1, hchar.2.2.2.1]
        refine mapOk_perm _ _ _ _ _ hchar.1.symm ?_
        exact mapOk_addLoad _ _ s.loadingPromises s.nextPromiseId s.completedIds rfl rfl hm hs0
      exact wf_setPromise _ _ s1 hmain hchar.2.2.2.2
  · rw [show (submitStep cfg ep pl s).1 = _ from
      congrArg Prod.fst (submitStep_other cfg ep pl s hl)]
    have hchar := enqueueTask_char
      { type := taskTypeFor ep, fileKey := getFileKey cfg pl.file_path,
        requestKey := requestKeyFor cfg ep pl, pid := s.nextPromiseId } s h3
    refine ⟨?_, hchar.2.2.2.2⟩
    rw [hchar.2.1, hchar.2.2.1, hchar.2.2.2.1]
    refine mapOk_perm _ _ _ _ _ hchar.1.symm ?_
    exact mapOk_addNonLoad _ _ s.loadingPromises s.nextPromiseId s.completedIds
      (taskTypeFor_ne_load ep hl) rfl hmo

theorem wf_completeStep (o : TaskOutcome) (s : MgrState) (hwf : WF s) :
    WF (completeStep o s) := by
  obtain ⟨hmo, h3⟩ := hwf
  cases hrn : s.running with
  | none =>
    simp only [completeStep, hrn]
    exact ⟨hmo, h3⟩
  | some t =>
    simp only [completeStep, hrn]
    apply wf_startNext _ rfl
    show MapOk (s.requestQueue ++ Option.toList (none : Option QueueTask))
      (if t.type = TaskType.load then mapErase t.requestKey s.loadingPromises
        else s.loadingPromises)
      s.nextPromiseId (s.completedIds ++ [t.pid])
    rw [liveTasks, hrn] at hmo
    have := mapOk_complete t s.requestQueue s.loadingPromises s.nextPromiseId
      s.completedIds hmo
    simpa using this

theorem wf_changeStep (cfg : Cfg) (np : String) (s : MgrState) (hwf : WF s) :
    WF (changeStep cfg np s) := by
  obtain ⟨hmo, h3⟩ := hwf
  have hbody : WF (changeBody np s) := by
    by_cases hb : s.isProcessingQueue = true ∨ s.requestQueue ≠ []
    · rw [changeBody, if_pos hb]
      exact ⟨hmo, fun hx => h3 hx⟩
    · rw [changeBody, if_neg hb]
      rcases not_or.mp hb with ⟨hb1, hb2⟩
      have hrn : s.running = none := h3 (by simpa using hb1)
      refine ⟨?_, fun hx => h3 hx⟩
      show MapOk (([] : List QueueTask) ++ s.running.toList) ([] : List (String × Nat))
        s.nextPromiseId s.completedIds
      rw [hrn]
      exact mapOk_empty s.nextPromiseId s.completedIds hmo.2.2.2.1
  cases hg : sameEnvAlive cfg np s with
  | false =>
    rw [changeStep_of_guard_false cfg np s hg]
    exact hbody
  | true =>
    rw [changeStep_of_guard_true cfg np s hg]
    exact ⟨hmo, h3⟩

theorem wf_step (cfg : Cfg) (s : MgrState) (e : Event)
    (hne : ∀ c : Int, e ≠ Event.close c) (hwf : WF s) : WF (step cfg s e) := by
  cases e with
  | submit ep pl => exact wf_submitStep cfg ep pl s hwf
  | complete o => exact wf_completeStep o s hwf
  | close c => exact absurd rfl (hne c)
  | change np => exact wf_changeStep cfg np s hwf
  | spawn => exact ⟨hwf.1, fun hx => hwf.2 hx⟩
  | serverStarted v => exact ⟨hwf.1, fun hx => hwf.2 hx⟩

theorem wf_run (cfg : Cfg) (s : MgrState) (es : List Event)
    (hcf : closeFree es = true) (hwf : WF s) : WF (run cfg s es) := by
  induction es generalizing s with
  | nil => exact hwf
  | cons e es ih =>
    rw [closeFree, List.all_cons, Bool.and_eq_true] at hcf
    refine ih _ hcf.2 (wf_step cfg s e ?_ hwf)
    intro c he
    rw [he] at hcf
    exact absurd hcf.1 (by simp)

theorem completedIds_startNext (x : MgrState) :
    (startNext x).completedIds = x.completedIds := by
  cases hqe : x.requestQueue with
  | nil =>
    cases hpe : x.pendingPythonPath with
    | none => simp [startNext, hqe, hpe]
    | some v => simp [startNext, hqe, hpe, restartServer]
  | cons a as => simp [startNext, hqe]

theorem completedIds_maybeProcess (x : MgrState) :
    (maybeProcess x).completedIds = x.completedIds := by
  rcases maybeProcess_cases x with ⟨_, he⟩ | ⟨_, he⟩
  · rw [he]
  · rw [he, completedIds_startNext]

theorem completedIds_submit (cfg : Cfg) (ep : String) (pl : Payload) (s : MgrState) :
    ((submitStep cfg ep pl s).1).completedIds = s.completedIds := by
  rcases submitStep_fst_cases cfg ep pl s with he | ⟨t, s1, hpid, hs1, he⟩ | ⟨t, hpid, he⟩
  · rw [he]
  · rw [he]
    show s1.completedIds = s.completedIds
    rw [hs1, enqueueTask, completedIds_maybeProcess]
    rfl
  · rw [he, enqueueTask, completedIds_maybeProcess]
    rfl

/-- The completed history only grows. -/
theorem completed_mono_step (cfg : Cfg) (s : MgrState) (e : Event) (q : Nat)
    (h : q ∈ s.completedIds) : q ∈ (step cfg s e).completedIds := by
  cases e with
  | submit ep pl =>
    show q ∈ ((submitStep cfg ep pl s).1).completedIds
    rw [completedIds_submit]
    exact h
  | complete o =>
    cases hrn : s.running with
    | none =>
      simp only [step, completeStep, hrn]
      exact h
    | some t =>
      simp only [step, completeStep, hrn]
      rw [completedIds_startNext]
      exact List.mem_append_left _ h
  | close c => exact h
  | change np =>
    show q ∈ (changeStep cfg np s).completedIds
    cases hg : sameEnvAlive cfg np s with
    | true =>
      rw [changeStep_of_guard_true cfg np s hg]
      exact h
    | false =>
      rw [changeStep_of_guard_false cfg np s hg]
      by_cases hb : s.isProcessingQueue = true ∨ s.requestQueue ≠ []
      · rw [changeBody, if_pos hb]
        exact h
      · rw [changeBody, if_neg hb]
        exact h
  | spawn => exact h
  | serverStarted v => exact h

theorem completed_mono_run (cfg : Cfg) (s : MgrState) (es : List Event) (q : Nat)
    (h : q ∈ s.completedIds) : q ∈ (run cfg s es).completedIds := by
  induction es generalizing s with
  | nil => exact h
  | cons e es ih => exact ih _ (completed_mono_step cfg s e q h)

/-- An in-flight entry survives any single non-close step whose result has
not recorded its task as completed. -/
theorem lookup_persist_step (cfg : Cfg) (s : MgrState) (e : Event) (k : String) (p : Nat)
    (hwf : WF s) (hne : ∀ c : Int, e ≠ Event.close c)
    (hlook : mapLookup k s.loadingPromises = some p)
    (hpc : p ∉ (step cfg s e).completedIds) :
    mapLookup k (step cfg s e).loadingPromises = some p := by
  obtain ⟨hmo, h3⟩ := hwf
  cases e with
  | submit ep pl =>
    show mapLookup k ((submitStep cfg ep pl s).1).loadingPromises = some p
    by_cases hl : ep = "/load"
    · subst hl
      rcases submitStep_load_pair_cases cfg pl s with ⟨q, hm, he⟩ | ⟨hm, s1, hs1, he⟩
      · rw [show (submitStep cfg "/load" pl s).1 = _ from congrArg Prod.fst he]
        exact hlook
      · rw [show (submitStep cfg "/load" pl s).1 = _ from congrArg Prod.fst he]
        have hkk : ¬k = requestKeyFor cfg "/load" pl := by
          intro hx
          rw [hx, hm] at hlook
          exact absurd hlook (by simp)
        show mapLookup k (mapSet (requestKeyFor cfg "/load" pl) s.nextPromiseId
          s1.loadingPromises) = some p
        rw [mapLookup_mapSet_ne _ _ _ _ hkk]
        have hchar := enqueueTask_char
          { type := TaskType.load, fileKey := getFileKey cfg pl.file_path,
            requestKey := requestKeyFor cfg "/load" pl, pid := s.nextPromiseId }
          { s with requestQueue := cancelRelease (getFileKey cfg pl.file_path) s.requestQueue }
          (fun hx => h3 hx)
        rw [← hs1] at hchar
        rw [hchar.2.1]
        exact hlook
    · rw [show (submitStep cfg ep pl s).1 = _ from
        congrArg Prod.fst (submitStep_other cfg ep pl s hl)]
      have hchar := enqueueTask_char
        { type := taskTypeFor ep, fileKey := getFileKey cfg pl.file_path,
          requestKey := requestKeyFor cfg ep pl, pid := s.nextPromiseId } s h3
      rw [hchar.2.1]
      exact hlook
  | complete o =>
    cases hrn : s.running with
    | none =>
      simp only [step, completeStep, hrn]
      exact hlook
    | some t =>
      have hpc2 : p ≠ t.pid := by
        intro hx
        refine hpc ?_
        simp only [step, completeStep, hrn]
        rw [completedIds_startNext]
        exact List.mem_append_right _ (by simp [hx])
      cases hqe : s.requestQueue with
      | nil =>
        exfalso
        obtain ⟨u, hu, hupid, hukey, hul⟩ := hmo.1 k p hlook
        rw [liveTasks, hqe, hrn] at hu
        simp only [List.nil_append, Option.toList, List.mem_singleton] at hu
        rw [hu] at hupid
        exact hpc2 hupid.symm
      | cons a as =>
        simp only [step, completeStep, hrn, startNext, hqe]
        by_cases hlt : t.type = TaskType.load
        · rw [if_pos hlt]
          by_cases hkk : k = t.requestKey
          · exfalso
            have h5 := hmo.2.1 t (by rw [liveTasks, hrn]; simp) hlt
            rw [← hkk, hlook] at h5
            exact hpc2 (Option.some.inj h5)
          · rw [mapLookup_mapErase_ne _ _ _ hkk]
            exact hlook
        · rw [if_neg hlt]
          exact hlook
  | close c => exact absurd rfl (hne c)
  | change np =>
    show mapLookup k (changeStep cfg np s).loadingPromises = some p
    cases hg : sameEnvAlive cfg np s with
    | true =>
      rw [changeStep_of_guard_true cfg np s hg]
      exact hlook
    | false =>
      rw [changeStep_of_guard_false cfg np s hg]
      by_cases hb : s.isProcessingQueue = true ∨ s.requestQueue ≠ []
      · rw [changeBody, if_pos hb]
        exact hlook
      · exfalso
        rcases not_or.mp hb with ⟨hb1, hb2⟩
        obtain ⟨u, hu, hh⟩ := hmo.1 k p hlook
        rw [liveTasks, h3 (by simpa using hb1), not_not.mp hb2] at hu
        simp at hu
  | spawn => exact hlook
  | serverStarted v => exact hlook

/-- An in-flight entry survives any close-free run during which its task
does not complete. -/
theorem lookup_persist_run (cfg : Cfg) (s : MgrState) (es : List Event) (k : String)
    (p : Nat) (hwf : WF s) (hcf : closeFree es = true)
    (hlook : mapLookup k s.loadingPromises = some p)
    (hpc : p ∉ (run cfg s es).completedIds) :
    mapLookup k (run cfg s es).loadingPromises = some p ∧ WF (run cfg s es) := by
  induction es generalizing s with
  | nil => exact ⟨hlook, hwf⟩
  | cons e es ih =>
    rw [closeFree, List.all_cons, Bool.and_eq_true] at hcf
    have hne : ∀ c : Int, e ≠ Event.close c := by
      intro c he
      rw [he] at hcf
      exact absurd hcf.1 (by simp)
    have hpc1 : p ∉ (step cfg s e).completedIds := by
      intro hx
      exact hpc (completed_mono_run cfg _ es p hx)
    exact ih _ (wf_step cfg s e hne hwf) hcf.2
      (lookup_persist_step cfg s e k p hwf hne hlook hpc1) hpc

theorem wf_init : WF initState := by
  refine ⟨⟨?_, ?_, ?_, ?_, ?_⟩, ?_⟩
  · intro k p hk
    exact absurd hk (by simp [initState, mapLookup])
  · intro t ht
    exact absurd ht (by simp [initState, liveTasks])
  · intro q hq
    exact absurd hq (by simp [initState, liveTasks])
  · intro q hq
    exact absurd hq (by simp [initState])
  · simp [initState, liveTasks]
  · intro _
    rfl

/-! ### Concrete instantiations used by counterexamples and witnesses -/

def idCfg : Cfg := { norm := id }

def plB : Payload := { file_path := "b", force_local := false }

def plK : Payload := { file_path := "k", force_local := false }

/-- Trace: a load for b occupies the worker, two releases for k queue up,
then a load for k arrives. -/
def twoReleaseTrace : List Event :=
  [ .submit "/load" plB
  , .submit "/release" plK
  , .submit "/release" plK
  , .submit "/load" plK ]

/-- C2, counterexample.  The claim says every release for k still queued
when a load for k arrives is removed and never executed.  With two releases
for k in the queue, findIndex plus splice removes only the first: the
release with promise id 2 is still a queued release for k when the load is
submitted, survives the scan, and its run action later executes. -/
theorem release_cancel_counterexample :
    ((run idCfg initState (twoReleaseTrace.take 3)).requestQueue.map
        (fun t => (t.type, t.fileKey, t.pid)) =
      [(TaskType.release, "k", 1), (TaskType.release, "k", 2)])
    ∧ ((run idCfg initState twoReleaseTrace).requestQueue.map
        (fun t => (t.type, t.fileKey, t.pid)) =
      [(TaskType.release, "k", 2), (TaskType.load, "k", 3)])
    ∧ 2 ∈ (run idCfg initState
        (twoReleaseTrace ++ [.complete .ok, .complete .ok, .complete .ok])).startedIds := by
  decide

/-- Trace: switch to the python interpreter while idle, start a load whose
ensureServerStarted call spawns the process, then ask for the very same
interpreter again while the task is executing. -/
def sameTargetBusyTrace : List Event :=
  [ .change "python", .submit "/load" plB, .spawn, .change "python" ]

/-- C4, counterexample.  The claim says a changePythonInterpreter call made
while the queue is busy always records its argument as the pending target.
When the target equals the current interpreter and a server process is
live, the call returns without recording anything. -/
theorem pending_switch_counterexample :
    ((run idCfg initState (sameTargetBusyTrace.take 3)).isProcessingQueue = true
      ∧ (run idCfg initState (sameTargetBusyTrace.take 3)).serverAlive = true
      ∧ (run idCfg initState (sameTargetBusyTrace.take 3)).currentPythonPath =
          some "python"
      ∧ (run idCfg initState (sameTargetBusyTrace.take 3)).pendingPythonPath = none)
    ∧ (run idCfg initState sameTargetBusyTrace).pendingPythonPath = none := by
  decide

/-- Trace: switch to interpreter a while idle (recording it as current,
with no live process), then start a load whose interpreter lookup fails
before any spawn, leaving the queue busy with no live server. -/
def sameTargetNoServerTrace : List Event :=
  [ .change "a", .submit "/load" plB ]

/-- C9, counterexample.  The claim says changePythonInterpreter(p) with p
equal to the current environment is a no-op whether or not a worker process
is live.  Without a live process the guard fails, and with a busy queue the
call records p as the pending target, which later triggers a restart. -/
theorem same_env_noop_counterexample :
    ((run idCfg initState sameTargetNoServerTrace).serverAlive = false
      ∧ (run idCfg initState sameTargetNoServerTrace).currentPythonPath = some "a"
      ∧ (run idCfg initState sameTargetNoServerTrace).isProcessingQueue = true
      ∧ (run idCfg initState sameTargetNoServerTrace).pendingPythonPath = none)
    ∧ (step idCfg (run idCfg initState sameTargetNoServerTrace)
        (.change "a")).pendingPythonPath = some "a" := by
  decide

/-- C1, counterexample.  The claim says any second load with the same
normalized path and mode submitted before the first load task completes
receives the very same promise and creates no second task.  If the worker
process emits close between the two submissions, the handler clears the
in-flight map: the first task never completes (it was discarded), yet the
second submission builds a fresh task with a distinct promise. -/
theorem load_dedup_counterexample :
    (submitStep idCfg "/load" plK initState).2 = 0
    ∧ (run idCfg initState [.submit "/load" plK, .close 1]).completedIds = []
    ∧ (submitStep idCfg "/load" plK
        (run idCfg initState [.submit "/load" plK, .close 1])).2 = 1
    ∧ (submitStep idCfg "/load" plK
        (run idCfg initState [.submit "/load" plK, .close 1])).1.nextPromiseId = 2 := by
  decide

/-! ### Claim theorems -/

/-- C3: the queue processor runs tasks strictly one at a time in FIFO
submission order, and a rejection inside a task's action is caught and does
not prevent the remaining queued tasks from running.  First part: along any
event trace the history of started run actions is a sublist of the enqueue
history, so starts respect submission order; at most one task is ever held
by the single running slot, and the drain loop only hands it a new task in
the same atomic step in which the previous action finished.  Second part:
whatever the outcome of the running task, success or error, the next queued
task is popped and started in the same step, its caller promise settled
exactly according to the outcome.  Third part: whenever the drain loop is
inactive, no task is running. -/
theorem queue_serial_fifo (cfg : Cfg) :
    (∀ es : List Event,
      (run cfg initState es).startedIds.Sublist (run cfg initState es).submittedIds)
    ∧ (∀ s : MgrState, ∀ t u : QueueTask, ∀ rest : List QueueTask, ∀ o : TaskOutcome,
        s.running = some t → s.requestQueue = u :: rest →
          (completeStep o s).running = some u
          ∧ (completeStep o s).requestQueue = rest
          ∧ (completeStep o s).startedIds = s.startedIds ++ [u.pid]
          ∧ (completeStep o s).settled = settleOnce t.pid o s.settled)
    ∧ (∀ es : List Event, (run cfg initState es).isProcessingQueue = false →
        (run cfg initState es).running = none) := by
  refine ⟨?_, ?_, ?_⟩
  · intro es
    have h := fifoInv_run cfg initState es fifoInv_init
    exact (List.sublist_append_left _ _).trans h
  · intro s t u rest o hrn hq
    simp only [completeStep, hrn, startNext, hq]
    exact ⟨trivial, trivial, trivial, trivial⟩
  · intro es
    exact idleNoRun_run cfg initState es (fun _ => rfl)

/-- Witness for C3 at a concrete trace and state. -/
theorem queue_serial_fifo_witness :
    ((run idCfg initState twoReleaseTrace).startedIds.Sublist
        (run idCfg initState twoReleaseTrace).submittedIds)
    ∧ (completeStep (TaskOutcome.err "boom") (run idCfg initState twoReleaseTrace)).running =
        some { type := TaskType.release, fileKey := "k", requestKey := "k", pid := 2 } := by
  constructor
  · exact (queue_serial_fifo idCfg).1 twoReleaseTrace
  · exact ((queue_serial_fifo idCfg).2.1 (run idCfg initState twoReleaseTrace)
      { type := TaskType.load, fileKey := "b", requestKey := "b::false", pid := 0 }
      { type := TaskType.release, fileKey := "k", requestKey := "k", pid := 2 }
      [{ type := TaskType.load, fileKey := "k", requestKey := "k::false", pid := 3 }]
      (TaskOutcome.err "boom") (by decide) (by decide)).1

/-- C2 (amended): when a load request for resource key k arrives, the
OLDEST release task for k still sitting in the queue is removed by the
findIndex-and-splice scan and its run action never executes afterwards:
it never enters the started history and its promise is never settled.
(Later duplicate releases for the same key stay queued, as shown by the
counterexample.) -/
theorem release_cancel_amended (cfg : Cfg) (pl : Payload) (s : MgrState)
    (q₁ q₂ : List QueueTask) (rel : QueueTask)
    (hq : s.requestQueue = q₁ ++ rel :: q₂)
    (hrel : rel.type = TaskType.release ∧ rel.fileKey = getFileKey cfg pl.file_path)
    (hfirst : ∀ u ∈ q₁, ¬(u.type = TaskType.release ∧ u.fileKey = getFileKey cfg pl.file_path))
    (hq1 : rel.pid ∉ (q₁ ++ q₂).map QueueTask.pid)
    (hr : ∀ u ∈ s.running.toList, u.pid ≠ rel.pid)
    (hn : rel.pid < s.nextPromiseId)
    (hst : rel.pid ∉ s.startedIds)
    (hse : rel.pid ∉ settledPids s) :
    rel.pid ∉ queuePids ((submitStep cfg "/load" pl s).1)
    ∧ ∀ es : List Event,
        rel.pid ∉ (run cfg ((submitStep cfg "/load" pl s).1) es).startedIds
        ∧ rel.pid ∉ settledPids (run cfg ((submitStep cfg "/load" pl s).1) es) := by
  have hsplice : cancelRelease (getFileKey cfg pl.file_path) s.requestQueue = q₁ ++ q₂ := by
    rw [hq]
    exact cancelRelease_eq_of_first _ _ _ _ hrel hfirst
  have hrs : ∀ t, s.running = some t → t.pid ≠ rel.pid := fun t ht =>
    hr t (by simp [ht])
  have hdead0 : Dead rel.pid
      { s with requestQueue := cancelRelease (getFileKey cfg pl.file_path) s.requestQueue } := by
    refine ⟨⟨?_, hrs, hn⟩, hst, hse⟩
    show rel.pid ∉ (cancelRelease (getFileKey cfg pl.file_path) s.requestQueue).map QueueTask.pid
    rw [hsplice]
    exact hq1
  have hdead : Dead rel.pid ((submitStep cfg "/load" pl s).1) := by
    rcases submitStep_load_fst_cases cfg pl s with he | ⟨t, s1, hpid, hs1, he⟩
    · rw [he]
      exact hdead0
    · rw [he]
      refine dead_eqFields _ _ s1 rfl rfl rfl rfl rfl ?_
      rw [hs1]
      exact dead_enqueueTask _ _ t (by rw [hpid]; exact Nat.ne_of_gt hn) hdead0
  exact ⟨hdead.1.1, fun es =>
    ⟨(dead_run cfg _ _ es hdead).2.1, (dead_run cfg _ _ es hdead).2.2⟩⟩

/-- Witness for C2 (amended): the first of the two queued releases for k is
removed by the incoming load and never runs. -/
theorem release_cancel_amended_witness :
    (1 ∉ queuePids
        ((submitStep idCfg "/load" plK (run idCfg initState (twoReleaseTrace.take 3))).1))
    ∧ 1 ∉ (run idCfg
        ((submitStep idCfg "/load" plK (run idCfg initState (twoReleaseTrace.take 3))).1)
        [.complete .ok, .complete .ok, .complete .ok]).startedIds
    ∧ 1 ∉ settledPids (run idCfg
        ((submitStep idCfg "/load" plK (run idCfg initState (twoReleaseTrace.take 3))).1)
        [.complete .ok, .complete .ok, .complete .ok]) := by
  have h := release_cancel_amended idCfg plK (run idCfg initState (twoReleaseTrace.take 3))
    [] [{ type := TaskType.release, fileKey := "k", requestKey := "k", pid := 2 }]
    { type := TaskType.release, fileKey := "k", requestKey := "k", pid := 1 }
    (by decide) (by decide) (by decide) (by decide) (by decide) (by decide)
    (by decide) (by decide)
  exact ⟨h.1, (h.2 _).1, (h.2 _).2⟩

/-- C10: whenever the worker process emits close, the handler resets the
process handle, port and isStarting flag, and empties the whole request
queue and the in-flight load-promise map; a task that was queued but not
yet started at that moment is discarded and its caller promise is never
resolved nor rejected by the manager, in this step or in any later one. -/
theorem close_discards_queue (cfg : Cfg) (s : MgrState) (c : Int) (p : Nat)
    (_hp : p ∈ queuePids s)
    (hr : ∀ u ∈ s.running.toList, u.pid ≠ p)
    (hn : p < s.nextPromiseId)
    (hst : p ∉ s.startedIds)
    (hse : p ∉ settledPids s) :
    (step cfg s (.close c)).serverAlive = false
    ∧ (step cfg s (.close c)).port = none
    ∧ (step cfg s (.close c)).isStarting = false
    ∧ (step cfg s (.close c)).requestQueue = []
    ∧ (step cfg s (.close c)).loadingPromises = []
    ∧ (step cfg s (.close c)).settled = s.settled
    ∧ ∀ es : List Event, p ∉ settledPids (run cfg (step cfg s (.close c)) es) := by
  have hdead : Dead p (step cfg s (.close c)) := by
    refine ⟨⟨?_, ?_, hn⟩, hst, hse⟩
    · show p ∉ queuePids (closeStep s)
      simp [closeStep, queuePids]
    · intro t ht
      exact hr t (by simp [show s.running = some t from ht])
  exact ⟨rfl, rfl, rfl, rfl, rfl, rfl, fun es => (dead_run cfg p _ es hdead).2.2⟩

/-- Witness for C10 at a concrete state: two loads are submitted, the first
is running and the second queued when the process closes; the queued
promise 1 is never settled afterwards. -/
theorem close_discards_queue_witness :
    (step idCfg (run idCfg initState [.submit "/load" plB, .submit "/load" plK])
        (.close 1)).requestQueue = []
    ∧ (step idCfg (run idCfg initState [.submit "/load" plB, .submit "/load" plK])
        (.close 1)).loadingPromises = []
    ∧ 1 ∉ settledPids (run idCfg
        (step idCfg (run idCfg initState [.submit "/load" plB, .submit "/load" plK])
          (.close 1))
        [.complete (.err "connection reset"), .submit "/load" plB, .complete .ok]) := by
  have h := close_discards_queue idCfg
    (run idCfg initState [.submit "/load" plB, .submit "/load" plK]) 1 1
    (by decide) (by decide) (by decide) (by decide) (by decide)
  exact ⟨h.2.2.2.1, h.2.2.2.2.1, h.2.2.2.2.2.2 _⟩

/-- C7: the code never rejects orphaned promises.  restartServer silently
clears the queue and the in-flight map without settling anything, and a
changePythonInterpreter call never settles anything either: no
EnvironmentChanged rejection exists anywhere.  A promise whose task is
discarded this way is never settled by any later events: it hangs
indefinitely, contradicting the claimed behavior (the spec itself flags
this as a defect to fix). -/
theorem env_switch_orphans_hang (cfg : Cfg) (env : String) (s : MgrState) :
    (restartServer env s).settled = s.settled
    ∧ (∀ np : String, (step cfg s (.change np)).settled = s.settled)
    ∧ (∀ p : Nat, p ∉ settledPids s → (∀ u ∈ s.running.toList, u.pid ≠ p) →
        p < s.nextPromiseId → p ∉ s.startedIds →
        ∀ es : List Event, p ∉ settledPids (run cfg (restartServer env s) es)) := by
  have hcb : ∀ np : String, (changeBody np s).settled = s.settled := by
    intro np
    by_cases hb : s.isProcessingQueue = true ∨ s.requestQueue ≠ []
    · rw [changeBody, if_pos hb]
    · rw [changeBody, if_neg hb]
      rfl
  refine ⟨rfl, ?_, ?_⟩
  · intro np
    show (changeStep cfg np s).settled = s.settled
    cases hg : sameEnvAlive cfg np s with
    | true => rw [changeStep_of_guard_true cfg np s hg]
    | false =>
      rw [changeStep_of_guard_false cfg np s hg]
      exact hcb np
  · intro p hse hr hn hst
    have hdead : Dead p (restartServer env s) := by
      refine ⟨⟨?_, ?_, hn⟩, hst, hse⟩
      · show p ∉ queuePids (restartServer env s)
        simp [restartServer, queuePids]
      · intro t ht
        exact hr t (by simp [show s.running = some t from ht])
    exact fun es => (dead_run cfg p _ es hdead).2.2

/-- Witness for C7: with a load running and another queued, a restart
orphans promise 1, and promise 1 is never settled by later activity. -/
theorem env_switch_orphans_hang_witness :
    (restartServer "envB"
        (run idCfg initState [.submit "/load" plB, .submit "/load" plK])).settled =
      (run idCfg initState [.submit "/load" plB, .submit "/load" plK]).settled
    ∧ 1 ∉ settledPids (run idCfg
        (restartServer "envB" (run idCfg initState [.submit "/load" plB, .submit "/load" plK]))
        [.complete .ok, .submit "/load" plK, .complete .ok]) := by
  have h := env_switch_orphans_hang idCfg "envB"
    (run idCfg initState [.submit "/load" plB, .submit "/load" plK])
  exact ⟨h.1, h.2.2 1 (by decide) (by decide) (by decide) (by decide) _⟩

/-- C4 (amended): while the queue is busy, a changePythonInterpreter(a)
call whose guard fails (the target differs from the current interpreter, or
no worker process is live) does not kill or restart the worker: it only
records a as the pending target.  A later changePythonInterpreter(b) under
the same conditions overwrites the pending target with b.  When the last
running task completes with an empty queue, exactly one restart occurs,
targeting the pending b, and the pending slot is cleared; completing with a
non-empty queue never restarts. -/
theorem pending_switch_amended (cfg : Cfg) (s : MgrState) (a b : String)
    (hbusy : s.isProcessingQueue = true ∨ s.requestQueue ≠ [])
    (hga : sameEnvAlive cfg a s = false)
    (hgb : sameEnvAlive cfg b { s with pendingPythonPath := some a } = false) :
    step cfg s (.change a) = { s with pendingPythonPath := some a }
    ∧ step cfg (step cfg s (.change a)) (.change b) = { s with pendingPythonPath := some b }
    ∧ (∀ s2 : MgrState, ∀ t : QueueTask, ∀ o : TaskOutcome,
        s2.pendingPythonPath = some b → s2.running = some t → s2.requestQueue = [] →
          (step cfg s2 (.complete o)).restarts = s2.restarts ++ [b]
          ∧ (step cfg s2 (.complete o)).pendingPythonPath = none
          ∧ (step cfg s2 (.complete o)).currentPythonPath = some b
          ∧ (step cfg s2 (.complete o)).serverAlive = false)
    ∧ (∀ s2 : MgrState, ∀ t u : QueueTask, ∀ rest : List QueueTask, ∀ o : TaskOutcome,
        s2.running = some t → s2.requestQueue = u :: rest →
          (step cfg s2 (.complete o)).restarts = s2.restarts
          ∧ (step cfg s2 (.complete o)).pendingPythonPath = s2.pendingPythonPath) := by
  have h1 : step cfg s (.change a) = { s with pendingPythonPath := some a } := by
    show changeStep cfg a s = _
    rw [changeStep_of_guard_false cfg a s hga, changeBody, if_pos hbusy]
  refine ⟨h1, ?_, ?_, ?_⟩
  · rw [h1]
    show changeStep cfg b { s with pendingPythonPath := some a } = _
    rw [changeStep_of_guard_false cfg b _ hgb, changeBody, if_pos hbusy]
  · intro s2 t o hpend hrn hq
    simp only [step, completeStep, hrn, startNext, hq, hpend, restartServer]
    exact ⟨trivial, trivial, trivial, trivial⟩
  · intro s2 t u rest o hrn hq
    simp only [step, completeStep, hrn, startNext, hq]
    exact ⟨trivial, trivial⟩

/-- Witness for C4 (amended): after switching to the python interpreter and
starting a load, switching to envA and then envB while the task runs
records only pending targets; when the task completes exactly one restart
to envB happens. -/
theorem pending_switch_amended_witness :
    (step idCfg (run idCfg initState (sameTargetBusyTrace.take 3)) (.change "envA") =
      { run idCfg initState (sameTargetBusyTrace.take 3) with
          pendingPythonPath := some "envA" })
    ∧ (step idCfg
          (step idCfg (run idCfg initState (sameTargetBusyTrace.take 3)) (.change "envA"))
          (.change "envB") =
        { run idCfg initState (sameTargetBusyTrace.take 3) with
            pendingPythonPath := some "envB" })
    ∧ (step idCfg
          (step idCfg
            (step idCfg (run idCfg initState (sameTargetBusyTrace.take 3)) (.change "envA"))
            (.change "envB"))
          (.complete .ok)).restarts =
        (step idCfg
          (step idCfg (run idCfg initState (sameTargetBusyTrace.take 3)) (.change "envA"))
          (.change "envB")).restarts ++ ["envB"] := by
  have h := pending_switch_amended idCfg (run idCfg initState (sameTargetBusyTrace.take 3))
    "envA" "envB" (by decide) (by decide) (by decide)
  refine ⟨h.1, h.2.1, ?_⟩
  have h3 := h.2.2.1
    (step idCfg
      (step idCfg (run idCfg initState (sameTargetBusyTrace.take 3)) (.change "envA"))
      (.change "envB"))
    { type := TaskType.load, fileKey := "b", requestKey := "b::false", pid := 0 }
    TaskOutcome.ok (by decide) (by decide) (by decide)
  exact h3.1

/-- C9 (amended): changePythonInterpreter(p) is a no-op exactly when the
normalized target equals the normalized current interpreter AND a worker
process is live; the whole state is unchanged.  (Without a live process the
call behaves like any other switch, as the counterexample shows.) -/
theorem same_env_noop_amended (cfg : Cfg) (p : String) (s : MgrState)
    (h : sameEnvAlive cfg p s = true) :
    step cfg s (.change p) = s :=
  changeStep_of_guard_true cfg p s h

/-- Witness for C9 (amended) at the busy state with a live server. -/
theorem same_env_noop_amended_witness :
    step idCfg (run idCfg initState (sameTargetBusyTrace.take 3)) (.change "python") =
      run idCfg initState (sameTargetBusyTrace.take 3) :=
  same_env_noop_amended idCfg "python" _ (by decide)

/-- Right after a /load submission, the in-flight map binds the request key
to the very promise handed back to the caller. -/
theorem submit_load_lookup (cfg : Cfg) (pl : Payload) (s : MgrState) :
    mapLookup (requestKeyFor cfg "/load" pl)
        ((submitStep cfg "/load" pl s).1).loadingPromises =
      some ((submitStep cfg "/load" pl s).2) := by
  rcases submitStep_load_pair_cases cfg pl s with ⟨p, hm, he⟩ | ⟨hm, s1, hs1, he⟩
  · rw [he]
    exact hm
  · rw [he]
    exact mapLookup_mapSet_self _ _ _

/-- A /load submission that finds its request key in flight joins: it
returns the mapped promise and neither mints a promise nor enqueues. -/
theorem submitStep_join (cfg : Cfg) (pl : Payload) (s : MgrState) (p : Nat)
    (hm : mapLookup (requestKeyFor cfg "/load" pl) s.loadingPromises = some p) :
    (submitStep cfg "/load" pl s).2 = p
    ∧ ((submitStep cfg "/load" pl s).1).nextPromiseId = s.nextPromiseId
    ∧ ((submitStep cfg "/load" pl s).1).submittedIds = s.submittedIds := by
  rcases submitStep_load_pair_cases cfg pl s with ⟨q, hm2, he⟩ | ⟨hm2, s1, hs1, he⟩
  · have hq : q = p := Option.some.inj (hm2.symm.trans hm)
    rw [he]
    exact ⟨hq, rfl, rfl⟩
  · rw [hm2] at hm
    exact absurd hm (by simp)

/-- C1 (amended): along any close-free execution, a second /load with the
same normalized file path and force_local flag, submitted before the first
load's task completes, receives the very same promise as the first caller
and creates no new task: the promise counter and the enqueue history are
untouched.  (A worker close event in between clears the in-flight map and
breaks this, as the counterexample shows.) -/
theorem load_dedup_amended (cfg : Cfg) (es₀ es : List Event) (pl pl' : Payload)
    (h₀ : closeFree es₀ = true) (hes : closeFree es = true)
    (hkey : requestKeyFor cfg "/load" pl' = requestKeyFor cfg "/load" pl)
    (hpc : (submitStep cfg "/load" pl (run cfg initState es₀)).2 ∉
      (run cfg ((submitStep cfg "/load" pl (run cfg initState es₀)).1) es).completedIds) :
    (submitStep cfg "/load" pl'
        (run cfg ((submitStep cfg "/load" pl (run cfg initState es₀)).1) es)).2 =
      (submitStep cfg "/load" pl (run cfg initState es₀)).2
    ∧ (submitStep cfg "/load" pl'
        (run cfg ((submitStep cfg "/load" pl (run cfg initState es₀)).1) es)).1.nextPromiseId =
      (run cfg ((submitStep cfg "/load" pl (run cfg initState es₀)).1) es).nextPromiseId
    ∧ (submitStep cfg "/load" pl'
        (run cfg ((submitStep cfg "/load" pl (run cfg initState es₀)).1) es)).1.submittedIds =
      (run cfg ((submitStep cfg "/load" pl (run cfg initState es₀)).1) es).submittedIds := by
  have hwf0 : WF (run cfg initState es₀) := wf_run cfg initState es₀ h₀ wf_init
  have hwf1 : WF ((submitStep cfg "/load" pl (run cfg initState es₀)).1) :=
    wf_submitStep cfg "/load" pl _ hwf0
  have hlook1 := submit_load_lookup cfg pl (run cfg initState es₀)
  have hper := lookup_persist_run cfg _ es _ _ hwf1 hes hlook1 hpc
  exact submitStep_join cfg pl' _ _ (by rw [hkey]; exact hper.1)

/-- Witness for C1 (amended): a load for k, an unrelated load for b in
between, then a second load for k joins the first promise. -/
theorem load_dedup_amended_witness :
    (submitStep idCfg "/load" plK
        (run idCfg ((submitStep idCfg "/load" plK (run idCfg initState [])).1)
          [.submit "/load" plB])).2 =
      (submitStep idCfg "/load" plK (run idCfg initState [])).2
    ∧ (submitStep idCfg "/load" plK
        (run idCfg ((submitStep idCfg "/load" plK (run idCfg initState [])).1)
          [.submit "/load" plB])).1.nextPromiseId =
      (run idCfg ((submitStep idCfg "/load" plK (run idCfg initState [])).1)
        [.submit "/load" plB]).nextPromiseId
    ∧ (submitStep idCfg "/load" plK
        (run idCfg ((submitStep idCfg "/load" plK (run idCfg initState [])).1)
          [.submit "/load" plB])).1.submittedIds =
      (run idCfg ((submitStep idCfg "/load" plK (run idCfg initState [])).1)
        [.submit "/load" plB]).submittedIds :=
  load_dedup_amended idCfg [] [.submit "/load" plB] plK plK
    (by decide) (by decide) (by decide) (by decide)

/-! ### Startup model

The promise returned by ensureServerStarted after a successful spawn, and
the stdout / stderr / close / error handlers registered on the child
process.  The initial state is the moment the handlers are installed:
serverProcess assigned, isStarting true, no port, empty stderr
accumulator, promise pending. -/

def jsWhitespace (c : Char) : Bool :=
  c == ' ' || c == '\n' || c == '\t' || c == '\r'

/-- data.toString().trim(). -/
def jsTrim (s : String) : String :=
  String.mk (((s.data.dropWhile jsWhitespace).reverse.dropWhile jsWhitespace).reverse)

def startsWithChars : List Char → List Char → Bool
  | [], _ => true
  | _ :: _, [] => false
  | a :: as, b :: bs => a == b && startsWithChars as bs

/-- str.includes(needle). -/
def hasInfix (n : List Char) : List Char → Bool
  | [] => n.isEmpty
  | c :: rest => startsWithChars n (c :: rest) || hasInfix n rest

/-- str.split(':'). -/
def splitColon : List Char → List (List Char)
  | [] => [[]]
  | c :: rest =>
    let r := splitColon rest
    if c = ':' then [] :: r
    else
      match r with
      | [] => [[c]]
      | h :: t => (c :: h) :: t

def digitsToNat (ds : List Char) : Nat :=
  ds.foldl (fun acc c => acc * 10 + (c.toNat - 48)) 0

/-- parseInt: leading whitespace then leading digits; none models NaN. -/
def jsParseInt (cs : List Char) : Option Nat :=
  let ds := (cs.dropWhile jsWhitespace).takeWhile Char.isDigit
  if ds.isEmpty then none else some (digitsToNat ds)

def markerStr : String := "SERVER_STARTED:"

/-- The startup promise outcome; resolved none models resolving with NaN
when the port fails to parse. -/
inductive StartupOutcome where
  | resolved (port : Option Nat)
  | rejected (msg : String)
deriving DecidableEq, Repr

structure StartupState where
  serverProcess : Bool
  port : Option Nat
  isStarting : Bool
  startupStderr : String
  outcome : Option StartupOutcome
deriving DecidableEq, Repr

def startupInit : StartupState :=
  { serverProcess := true
    port := none
    isStarting := true
    startupStderr := ""
    outcome := none }

/-- A promise settles at most once. -/
def settleStartup (o : StartupOutcome) : Option StartupOutcome → Option StartupOutcome
  | some x => some x
  | none => some o

inductive StartupEvent where
  | stdoutData (d : String)
  | stderrData (d : String)
  | closeEvt (code : Int)
  | errorEvt (msg : String)
deriving DecidableEq, Repr

/-- The stdout data handler: on a line containing the marker, parse the
port from the second colon-separated field, clear isStarting and resolve. -/
def onStdout (d : String) (st : StartupState) : StartupState :=
  let str := jsTrim d
  if hasInfix markerStr.data str.data then
    let po := ((splitColon str.data).get? 1).bind jsParseInt
    { st with port := po, isStarting := false,
              outcome := settleStartup (.resolved po) st.outcome }
  else st

/-- The stderr data handler accumulates the diagnostic text. -/
def onStderr (d : String) (st : StartupState) : StartupState :=
  { st with startupStderr := st.startupStderr ++ d }

/-- The diagnostic carried by a startup rejection: the accumulated stderr,
or a fallback naming the exit code when no stderr accumulated. -/
def closeMsg (code : Int) (st : StartupState) : String :=
  if st.startupStderr ≠ "" then st.startupStderr
  else "Process exited with code " ++ toString code

/-- The close handler: clear the live-process state, and reject only on a
non-zero exit code, with the accumulated stderr or a fallback message. -/
def onClose (code : Int) (st : StartupState) : StartupState :=
  let st1 := { st with serverProcess := false, port := none, isStarting := false }
  if code ≠ 0 then
    { st1 with outcome := settleStartup (.rejected (closeMsg code st)) st1.outcome }
  else st1

/-- The process error handler. -/
def onError (msg : String) (st : StartupState) : StartupState :=
  { st with isStarting := false, outcome := settleStartup (.rejected msg) st.outcome }

def startupStep (st : StartupState) : StartupEvent → StartupState
  | .stdoutData d => onStdout d st
  | .stderrData d => onStderr d st
  | .closeEvt c => onClose c st
  | .errorEvt m => onError m st

def runStartup (st : StartupState) : List StartupEvent → StartupState
  | [] => st
  | e :: es => runStartup (startupStep st e) es

/-- Events before the close: stdout chunks without the startup marker and
stderr chunks; no error event and no earlier close. -/
def quietEvents (es : List StartupEvent) : Bool :=
  es.all fun e =>
    match e with
    | .stdoutData d => !(hasInfix markerStr.data (jsTrim d).data)
    | .stderrData _ => true
    | .closeEvt _ => false
    | .errorEvt _ => false

/-- The stderr text accumulated over a list of events. -/
def stderrAcc : List StartupEvent → String
  | [] => ""
  | .stderrData d :: rest => d ++ stderrAcc rest
  | _ :: rest => stderrAcc rest

theorem string_append_assoc (a b c : String) : a ++ b ++ c = a ++ (b ++ c) := by
  apply String.ext
  simp [String.data_append, List.append_assoc]

theorem string_empty_append (s : String) : "" ++ s = s := by
  apply String.ext
  simp [String.data_append]

/-- A quiet event stream leaves the startup promise pending, only
accumulating stderr. -/
theorem runStartup_quiet (es : List StartupEvent) (st : StartupState)
    (ho : st.outcome = none) (hq : quietEvents es = true) :
    (runStartup st es).outcome = none
    ∧ (runStartup st es).startupStderr = st.startupStderr ++ stderrAcc es
    ∧ (runStartup st es).serverProcess = st.serverProcess
    ∧ (runStartup st es).port = st.port
    ∧ (runStartup st es).isStarting = st.isStarting := by
  induction es generalizing st with
  | nil =>
    refine ⟨ho, ?_, rfl, rfl, rfl⟩
    show st.startupStderr = st.startupStderr ++ ""
    apply String.ext
    simp [String.data_append, show ("" : String).data = ([] : List Char) from rfl]
  | cons e es ih =>
    rw [quietEvents, List.all_cons, Bool.and_eq_true] at hq
    cases e with
    | stdoutData d =>
      have hm : hasInfix markerStr.data (jsTrim d).data = false := by
        have := hq.1
        simpa using this
      have hstep : startupStep st (.stdoutData d) = st := by
        rw [startupStep, onStdout, if_neg (by rw [hm]; simp)]
      simp only [runStartup]
      rw [hstep]
      exact ih st ho hq.2
    | stderrData d =>
      have hres := ih (onStderr d st) ho hq.2
      simp only [runStartup, startupStep]
      refine ⟨hres.1, ?_, hres.2.2.1, hres.2.2.2.1, hres.2.2.2.2⟩
      rw [hres.2.1]
      show st.startupStderr ++ d ++ stderrAcc es = st.startupStderr ++ (d ++ stderrAcc es)
      exact string_append_assoc _ _ _
    | closeEvt c =>
      exact absurd hq.1 (by simp)
    | errorEvt m =>
      exact absurd hq.1 (by simp)

/-- C6, counterexample.  The claim says the startup promise rejects for
every process exit before the marker.  A worker that exits with code 0
before the marker leaves the promise pending forever: the close handler
only rejects on a non-zero code. -/
theorem startup_exit_zero_counterexample :
    (runStartup startupInit [.stderrData "boom", .closeEvt 0]).outcome = none
    ∧ (runStartup startupInit [.stderrData "boom", .closeEvt 0]).serverProcess = false
    ∧ (runStartup startupInit [.stderrData "boom", .closeEvt 0]).isStarting = false := by
  decide

/-- C6 (amended): if the worker process exits with a NON-ZERO code before
any stdout line carrying the SERVER_STARTED marker (and no spawn error
event fired), the startup promise rejects with the accumulated stderr text
(or a fallback naming the exit code when no stderr accumulated), and the
live-process state is fully cleared: serverProcess, port and isStarting are
reset, so ensureServerStarted's fast paths fail and a later request
attempts a fresh spawn. -/
theorem runStartup_append_single (es : List StartupEvent) (e : StartupEvent) :
    ∀ st : StartupState, runStartup st (es ++ [e]) = startupStep (runStartup st es) e := by
  induction es with
  | nil =>
    intro st
    rfl
  | cons f fs ih =>
    intro st
    exact ih (startupStep st f)

theorem onClose_nonzero (c : Int) (st : StartupState) (hc : ¬c = 0) :
    onClose c st =
      { st with
        serverProcess := false
        port := none
        isStarting := false
        outcome := settleStartup (.rejected (closeMsg c st)) st.outcome } := by
  simp only [onClose]
  rw [if_pos hc]

theorem startup_failure_amended (es : List StartupEvent) (c : Int)
    (hq : quietEvents es = true) (hc : ¬c = 0) :
    (runStartup startupInit (es ++ [.closeEvt c])).outcome =
      some (.rejected (if stderrAcc es ≠ "" then stderrAcc es
        else "Process exited with code " ++ toString c))
    ∧ (runStartup startupInit (es ++ [.closeEvt c])).serverProcess = false
    ∧ (runStartup startupInit (es ++ [.closeEvt c])).port = none
    ∧ (runStartup startupInit (es ++ [.closeEvt c])).isStarting = false := by
  have hquiet := runStartup_quiet es startupInit rfl hq
  have hse : (runStartup startupInit es).startupStderr = stderrAcc es := by
    rw [hquiet.2.1]
    exact string_empty_append _
  rw [runStartup_append_single es (.closeEvt c) startupInit]
  rw [show startupStep (runStartup startupInit es) (.closeEvt c) =
    onClose c (runStartup startupInit es) from rfl]
  rw [onClose_nonzero c _ hc]
  refine ⟨?_, rfl, rfl, rfl⟩
  show settleStartup (.rejected (closeMsg c (runStartup startupInit es)))
    (runStartup startupInit es).outcome = _
  rw [hquiet.1]
  simp only [settleStartup, closeMsg, hse]

/-- Witness for C6 (amended): stderr text then exit code 1. -/
theorem startup_failure_amended_witness :
    (runStartup startupInit
        [.stderrData "ModuleNotFoundError: torch", .closeEvt 1]).outcome =
      some (.rejected "ModuleNotFoundError: torch")
    ∧ (runStartup startupInit
        [.stderrData "ModuleNotFoundError: torch", .closeEvt 1]).serverProcess = false := by
  have h := startup_failure_amended [.stderrData "ModuleNotFoundError: torch"] 1
    (by decide) (by decide)
  refine ⟨?_, h.2.1⟩
  rw [show ([StartupEvent.stderrData "ModuleNotFoundError: torch", .closeEvt 1] :
      List StartupEvent) =
    [StartupEvent.stderrData "ModuleNotFoundError: torch"] ++ [.closeEvt 1] from rfl]
  rw [h.1]
  decide

/-! ### Transport model

doHttpRequest builds an options object for http.request and registers a
response handler, a timeout handler and an error handler on the request.
The options object carries hostname, port, path, method and the two
headers, and NOTHING else: in particular no timeout property; and
req.setTimeout is never called.  Platform semantics, modelled from the
Node.js API contract: the request's timeout event is emitted only when a
socket timeout has been configured (via the timeout option or setTimeout);
ValidHttpTrace records exactly that rule. -/

structure HttpOptions where
  hostname : String
  port : Nat
  path : String
  method : String
  contentType : String
  timeoutMs : Option Nat
deriving DecidableEq, Repr

/-- The options object built by doHttpRequest: note timeoutMs is none
because the source sets no timeout property and never calls setTimeout. -/
def doHttpRequestOptions (port : Nat) (endpoint : String) : HttpOptions :=
  { hostname := "127.0.0.1"
    port := port
    path := endpoint
    method := "POST"
    contentType := "application/json"
    timeoutMs := none }

inductive ReqOutcome where
  | resolvedJson (body : String)
  | rejectedParse (body : String)
  | rejectedTimeout
  | rejected (msg : String)
deriving DecidableEq, Repr

inductive HttpEvent where
  | response (status : Int) (body : String)
  | socketTimeout
  | errorEvt (msg : String)
deriving DecidableEq, Repr

def settleReq (o : ReqOutcome) : Option ReqOutcome → Option ReqOutcome
  | some x => some x
  | none => some o

/-- The three request handlers of doHttpRequest.  jsonOk abstracts whether
JSON.parse of the body succeeds.  A non-200 status rejects with the Server
Error message; the timeout handler rejects with the Request Timeout error;
the error handler rejects with the transport error. -/
def httpStep (jsonOk : String → Bool) (st : Option ReqOutcome) :
    HttpEvent → Option ReqOutcome
  | .response status body =>
    if status ≠ 200 then
      settleReq (.rejected ("Server Error " ++ toString status ++ ": " ++ body)) st
    else if jsonOk body then settleReq (.resolvedJson body) st
    else settleReq (.rejectedParse body) st
  | .socketTimeout => settleReq .rejectedTimeout st
  | .errorEvt m => settleReq (.rejected m) st

def runHttp (jsonOk : String → Bool) (st : Option ReqOutcome) :
    List HttpEvent → Option ReqOutcome
  | [] => st
  | e :: es => runHttp jsonOk (httpStep jsonOk st e) es

/-- Modelled platform rule: with no configured timeout, the socket timeout
event never fires. -/
def ValidHttpTrace (opts : HttpOptions) (es : List HttpEvent) : Prop :=
  opts.timeoutMs = none → HttpEvent.socketTimeout ∉ es

theorem runHttp_no_timeout (jsonOk : String → Bool) (es : List HttpEvent)
    (st : Option ReqOutcome) (hst : ¬st = some ReqOutcome.rejectedTimeout)
    (hns : HttpEvent.socketTimeout ∉ es) :
    ¬runHttp jsonOk st es = some ReqOutcome.rejectedTimeout := by
  induction es generalizing st with
  | nil => exact hst
  | cons e es ih =>
    have hne : HttpEvent.socketTimeout ∉ es := fun hx =>
      hns (List.mem_cons_of_mem e hx)
    refine ih _ ?_ hne
    cases e with
    | response status body =>
      show ¬httpStep jsonOk st (.response status body) = some ReqOutcome.rejectedTimeout
      rw [httpStep]
      by_cases hs : status ≠ 200
      · rw [if_pos hs]
        cases st with
        | some x => exact hst
        | none => simp [settleReq]
      · rw [if_neg hs]
        by_cases hj : jsonOk body
        · rw [if_pos hj]
          cases st with
          | some x => exact hst
          | none => simp [settleReq]
        · rw [if_neg hj]
          cases st with
          | some x => exact hst
          | none => simp [settleReq]
    | socketTimeout => exact absurd (List.mem_cons_self _ _) hns
    | errorEvt m =>
      show ¬httpStep jsonOk st (.errorEvt m) = some ReqOutcome.rejectedTimeout
      cases st with
      | some x => exact hst
      | none => simp [httpStep, settleReq]

/-- C8: the transport call is NOT guarded by a request timeout.  The
options object built by doHttpRequest configures no timeout and setTimeout
is never called, so under the Node platform rule the registered timeout
listener can never fire: no valid event trace ever rejects with the
Request Timeout error, and a worker that accepts the connection but never
responds (the empty trace) leaves the caller promise pending forever.
This contradicts the claim (and the source's own comment, which says a
request timeout is set there). -/
theorem request_timeout_code_bug (jsonOk : String → Bool) (port : Nat) (endpoint : String) :
    (doHttpRequestOptions port endpoint).timeoutMs = none
    ∧ (∀ es : List HttpEvent, ValidHttpTrace (doHttpRequestOptions port endpoint) es →
        ¬runHttp jsonOk none es = some ReqOutcome.rejectedTimeout)
    ∧ runHttp jsonOk none [] = none := by
  refine ⟨rfl, ?_, rfl⟩
  intro es hv
  exact runHttp_no_timeout jsonOk es none (by simp) (hv rfl)

/-- Witness for C8: a concrete valid trace (connection refused) never
produces the Request Timeout rejection. -/
theorem request_timeout_code_bug_witness :
    ¬runHttp (fun _ => true) none [HttpEvent.errorEvt "ECONNREFUSED"] =
      some ReqOutcome.rejectedTimeout :=
  (request_timeout_code_bug (fun _ => true) 8000 "/load").2.1
    [HttpEvent.errorEvt "ECONNREFUSED"] (fun _ => by decide)

/-! ### Cache model

The fingerprint computation (PthEditorProvider.computeCacheKey) and the
cache-then-worker pipeline of loadPthContent.  JavaScript values are
embedded with explicit null and undefined so that the property reads of
the source can throw exactly where JavaScript throws; JSON.parse, the
md5 digest, the file system and the out-of-scope HTML rendering
(generatePageHtml with getWebviewContent) are parameters of the
environment, returning none where the original throws or misses. -/

inductive JsValue where
  | jnull
  | jundef
  | jbool (b : Bool)
  | jnum (n : Int)
  | jstr (s : String)
  | jobj (fields : List (String × JsValue))

inductive FieldRead where
  | thrown
  | ok (v : JsValue)

def jfLookup (k : String) : List (String × JsValue) → JsValue
  | [] => .jundef
  | e :: rest => if e.1 = k then e.2 else jfLookup k rest

/-- Property access v.k with JavaScript semantics: throws on null and
undefined receivers, yields undefined on primitives and missing fields. -/
def jsGetField (v : JsValue) (k : String) : FieldRead :=
  match v with
  | .jnull => .thrown
  | .jundef => .thrown
  | .jobj fields => .ok (jfLookup k fields)
  | _ => .ok .jundef

def truthy : JsValue → Bool
  | .jnull => false
  | .jundef => false
  | .jbool b => b
  | .jnum n => !(n == 0)
  | .jstr s => !(s == "")
  | .jobj _ => true

/-- The statSync result as it is interpolated into the key template:
the rendered mtimeMs and size. -/
structure Stats where
  mtimeRepr : String
  sizeRepr : String
deriving DecidableEq, Repr

/-- The template string of computeCacheKey:
filePath-mtimeMs-size-forceLocal. -/
def keyContent (filePath : String) (st : Stats) (forceLocal : Bool) : String :=
  filePath ++ "-" ++ st.mtimeRepr ++ "-" ++ st.sizeRepr ++ "-" ++
    (if forceLocal then "true" else "false")

/-- computeCacheKey: the md5 digest of the key content; null when statSync
throws (missing file). -/
def computeCacheKey (md5 : String → String) (filePath : String)
    (st : Option Stats) (forceLocal : Bool) : Option String :=
  match st with
  | some stats => some (md5 (keyContent filePath stats forceLocal))
  | none => none

/-- getCachePath: cacheDir/hash.json. -/
def getCachePath (cacheDir : String) (hash : String) : String :=
  cacheDir ++ "/" ++ hash ++ ".json"

structure CacheEnv where
  md5 : String → String
  cacheDir : String
  readFile : String → Option String
  jsonParse : String → Option JsValue
  render : JsValue → Option String
  serverResult : Option JsValue

structure LoadOutcome where
  taskRan : Bool
  servedFromCache : Bool
  served : Option JsValue
  cacheWritten : Option String

/-- The worker path of loadPthContent: sendRequest runs, an error field in
the result shows the error page without caching, otherwise the result is
written to the cache (saveToCache runs before rendering) and rendered. -/
def loadPthServer (env : CacheEnv) (cachePath : String) : LoadOutcome :=
  match env.serverResult with
  | none => { taskRan := true, servedFromCache := false, served := none, cacheWritten := none }
  | some result =>
    match jsGetField result "error" with
    | .thrown =>
      { taskRan := true, servedFromCache := false, served := none, cacheWritten := none }
    | .ok errv =>
      if truthy errv then
        { taskRan := true, servedFromCache := false, served := none, cacheWritten := none }
      else
        match env.render result with
        | some _ =>
          { taskRan := true, servedFromCache := false, served := some result,
            cacheWritten := some cachePath }
        | none =>
          { taskRan := true, servedFromCache := false, served := none,
            cacheWritten := some cachePath }

/-- loadPthContent: compute the fingerprint, try the cache file under it
(read, JSON.parse, take the data field, render), and fall back to the
worker on a missing file or any exception inside the try block. -/
def loadPthContent (env : CacheEnv) (filePath : String) (st : Option Stats)
    (forceLocal : Bool) : LoadOutcome :=
  let hash := computeCacheKey env.md5 filePath st forceLocal
  let hashStr := match hash with | some h => h | none => "null"
  let cachePath := getCachePath env.cacheDir hashStr
  match env.readFile cachePath with
  | some raw =>
    match env.jsonParse raw with
    | none => loadPthServer env cachePath
    | some v =>
      match jsGetField v "data" with
      | .thrown => loadPthServer env cachePath
      | .ok dataV =>
        match env.render dataV with
        | some _ =>
          { taskRan := false, servedFromCache := true, served := some dataV,
            cacheWritten := none }
        | none => loadPthServer env cachePath
  | none => loadPthServer env cachePath

/-- Splitting a character list at its first dash is unambiguous: if neither
prefix contains a dash, equal concatenations have equal parts. -/
theorem splitFirstDash {a a' b b' : List Char}
    (ha : ('-') ∉ a) (ha' : ('-') ∉ a')
    (h : a ++ '-' :: b = a' ++ '-' :: b') : a = a' ∧ b = b' := by
  induction a generalizing a' with
  | nil =>
    cases a' with
    | nil =>
      simp only [List.nil_append] at h
      exact ⟨rfl, (List.cons.inj h).2⟩
    | cons c rest =>
      simp only [List.nil_append, List.cons_append] at h
      obtain ⟨hc, -⟩ := List.cons.inj h
      exact absurd (by rw [← hc]; exact List.mem_cons_self _ _) ha'
  | cons c rest ih =>
    have hc : c ≠ '-' := fun he => ha (by rw [he]; exact List.mem_cons_self _ _)
    have hrest : ('-') ∉ rest := fun hm => ha (List.mem_cons_of_mem c hm)
    cases a' with
    | nil =>
      simp only [List.cons_append, List.nil_append] at h
      obtain ⟨hc', -⟩ := List.cons.inj h
      exact absurd hc' hc
    | cons c' rest' =>
      simp only [List.cons_append] at h
      obtain ⟨hcc, ht⟩ := List.cons.inj h
      have hrest' : ('-') ∉ rest' := fun hm => ha' (List.mem_cons_of_mem c' hm)
      obtain ⟨h1, h2⟩ := ih hrest hrest' ht
      exact ⟨by rw [hcc, h1], h2⟩

/-- The character data of the key-content template, with the dash
separators exposed. -/
theorem keyContent_data (filePath : String) (st : Stats) (b : Bool) :
    (keyContent filePath st b).data =
      filePath.data ++ '-' :: (st.mtimeRepr.data ++ '-' :: (st.sizeRepr.data ++
        '-' :: (if b then "true" else "false").data)) := by
  simp only [keyContent, String.data_append, show "-".data = ['-'] from rfl,
    List.append_assoc, List.singleton_append, List.cons_append,
    List.nil_append]

/-- For a fixed file path, the key content determines the stat fields and
the mode flag, provided the stat renderings carry no dash (mtimeMs and
size are decimal renderings of numbers). -/
theorem keyContent_inj {filePath : String} {st st' : Stats} {b b' : Bool}
    (hm : ('-') ∉ st.mtimeRepr.data) (hs : ('-') ∉ st.sizeRepr.data)
    (hm' : ('-') ∉ st'.mtimeRepr.data) (hs' : ('-') ∉ st'.sizeRepr.data)
    (h : keyContent filePath st b = keyContent filePath st' b') :
    st = st' ∧ b = b' := by
  have hd := congrArg String.data h
  rw [keyContent_data, keyContent_data] at hd
  have h1 := List.append_cancel_left hd
  obtain ⟨-, h2⟩ := List.cons.inj h1
  obtain ⟨hmm, h3⟩ := splitFirstDash hm hm' h2
  obtain ⟨hss, h4⟩ := splitFirstDash hs hs' h3
  have hb : b = b' := by
    cases b <;> cases b'
    · rfl
    · exact absurd h4 (by decide)
    · exact absurd h4 (by decide)
    · rfl
  refine ⟨?_, hb⟩
  cases st with
  | mk m s =>
    cases st' with
    | mk m' s' =>
      simp only at hmm hss
      rw [show m = m' from String.ext hmm, show s = s' from String.ext hss]

/-- Distinct hashes land in distinct cache files under the same cache
directory. -/
theorem getCachePath_inj {cacheDir h1 h2 : String}
    (h : getCachePath cacheDir h1 = getCachePath cacheDir h2) : h1 = h2 := by
  have hd := congrArg String.data h
  simp only [getCachePath, String.data_append, List.append_assoc] at hd
  exact String.ext (List.append_cancel_right
    (List.append_cancel_left (List.append_cancel_left hd)))

/-- Every branch of the worker path runs the task and never serves from
the cache. -/
theorem loadPthServer_ran (env : CacheEnv) (p : String) :
    (loadPthServer env p).taskRan = true ∧
      (loadPthServer env p).servedFromCache = false := by
  unfold loadPthServer
  repeat' split
  all_goals exact ⟨rfl, rfl⟩

/-- A worker result without a truthy error field is written to the cache
file (saveToCache runs before the rendering, so this holds whether or not
generatePageHtml succeeds). -/
theorem loadPthServer_writes (env : CacheEnv) (p : String) (r e : JsValue)
    (hr : env.serverResult = some r)
    (he : jsGetField r "error" = FieldRead.ok e) (ht : truthy e = false) :
    (loadPthServer env p).cacheWritten = some p := by
  unfold loadPthServer
  simp only [hr, he, ht]
  cases env.render r <;> rfl

/-- A missing cache file sends the whole load down the worker path. -/
theorem loadPthContent_miss (env : CacheEnv) (filePath : String) (st : Stats)
    (fl : Bool)
    (h : env.readFile (getCachePath env.cacheDir
      (env.md5 (keyContent filePath st fl))) = none) :
    loadPthContent env filePath (some st) fl =
      loadPthServer env (getCachePath env.cacheDir
        (env.md5 (keyContent filePath st fl))) := by
  unfold loadPthContent computeCacheKey
  simp only [h]

/-- A cache file that reads, parses, yields a data field and renders is
served directly, with no task. -/
theorem loadPthContent_hit (env : CacheEnv) (filePath : String) (st : Stats)
    (fl : Bool) (raw : String) (v d : JsValue) (html : String)
    (h1 : env.readFile (getCachePath env.cacheDir
      (env.md5 (keyContent filePath st fl))) = some raw)
    (h2 : env.jsonParse raw = some v)
    (h3 : jsGetField v "data" = FieldRead.ok d)
    (h4 : env.render d = some html) :
    loadPthContent env filePath (some st) fl =
      { taskRan := false, servedFromCache := true, served := some d,
        cacheWritten := none } := by
  unfold loadPthContent computeCacheKey
  simp only [h1, h2, h3, h4]

/-- Environment for the counterexample: the cache file holds the five
bytes null, which JSON.parse accepts, returning null. -/
def cacheCexEnv1 : CacheEnv :=
  { md5 := fun _ => "h", cacheDir := "c",
    readFile := fun _ => some "null",
    jsonParse := fun _ => some JsValue.jnull,
    render := fun _ => some "html",
    serverResult := some (JsValue.jobj []) }

/-- Environment for the counterexample: full cache miss and a worker
result carrying an error field. -/
def cacheCexEnv2 : CacheEnv :=
  { md5 := fun _ => "h", cacheDir := "c",
    readFile := fun _ => none,
    jsonParse := fun _ => none,
    render := fun _ => some "html",
    serverResult := some (JsValue.jobj [("error", JsValue.jstr "boom")]) }

/-- C5 counterexample: a cache file for the exact fingerprint exists and
parses (the file content null is valid JSON), yet the data property read
on the parsed null throws inside the try block, so the load falls through
and the worker task runs anyway; and on a full miss a worker result
carrying an error field is never written to the cache, contradicting both
universal halves of the claim. -/
theorem cache_fingerprint_counterexample :
    (cacheCexEnv1.readFile
        (getCachePath cacheCexEnv1.cacheDir
          (cacheCexEnv1.md5 (keyContent "f" ⟨"1", "2"⟩ false))) = some "null" ∧
      cacheCexEnv1.jsonParse "null" = some JsValue.jnull ∧
      (loadPthContent cacheCexEnv1 "f" (some ⟨"1", "2"⟩) false).taskRan = true ∧
      (loadPthContent cacheCexEnv1 "f"
        (some ⟨"1", "2"⟩) false).servedFromCache = false) ∧
    (loadPthContent cacheCexEnv2 "f" (some ⟨"1", "2"⟩) false).taskRan = true ∧
    (loadPthContent cacheCexEnv2 "f"
      (some ⟨"1", "2"⟩) false).cacheWritten = none :=
  ⟨⟨rfl, rfl, rfl, rfl⟩, rfl, rfl⟩

/-- C5 (amended): the fingerprint is the md5 digest of the template
joining file path, mtimeMs, size and the force-local flag with dashes; a
cache file under that fingerprint that reads, parses AND yields a
renderable data property is served with no task and no cache write;
whenever mtime, size or mode differ (with an injective digest and
dash-free number renderings) the fingerprint and hence the cache file
path differ, so a stale entry is never read; and on a missing cache file
the task always runs, and a worker result without an error field is
written to the cache under the fingerprint. -/
theorem cache_fingerprint_amended (env : CacheEnv) (filePath : String)
    (st st' : Stats) (fl fl' : Bool)
    (hinj : Function.Injective env.md5)
    (hm : ('-') ∉ st.mtimeRepr.data) (hs : ('-') ∉ st.sizeRepr.data)
    (hm' : ('-') ∉ st'.mtimeRepr.data) (hs' : ('-') ∉ st'.sizeRepr.data) :
    computeCacheKey env.md5 filePath (some st) fl =
      some (env.md5 (keyContent filePath st fl)) ∧
    (∀ raw v d html,
      env.readFile (getCachePath env.cacheDir
        (env.md5 (keyContent filePath st fl))) = some raw →
      env.jsonParse raw = some v →
      jsGetField v "data" = FieldRead.ok d →
      env.render d = some html →
      loadPthContent env filePath (some st) fl =
        { taskRan := false, servedFromCache := true, served := some d,
          cacheWritten := none }) ∧
    (¬(st = st' ∧ fl = fl') →
      env.md5 (keyContent filePath st fl) ≠
        env.md5 (keyContent filePath st' fl') ∧
      getCachePath env.cacheDir (env.md5 (keyContent filePath st fl)) ≠
        getCachePath env.cacheDir (env.md5 (keyContent filePath st' fl'))) ∧
    (env.readFile (getCachePath env.cacheDir
        (env.md5 (keyContent filePath st fl))) = none →
      (loadPthContent env filePath (some st) fl).taskRan = true ∧
      (loadPthContent env filePath (some st) fl).servedFromCache = false ∧
      (∀ r e, env.serverResult = some r →
        jsGetField r "error" = FieldRead.ok e → truthy e = false →
        (loadPthContent env filePath (some st) fl).cacheWritten =
          some (getCachePath env.cacheDir
            (env.md5 (keyContent filePath st fl))))) := by
  refine ⟨rfl, ?_, ?_, ?_⟩
  · intro raw v d html h1 h2 h3 h4
    exact loadPthContent_hit env filePath st fl raw v d html h1 h2 h3 h4
  · intro hdiff
    constructor
    · intro he
      exact hdiff (keyContent_inj hm hs hm' hs' (hinj he))
    · intro hp
      exact hdiff (keyContent_inj hm hs hm' hs' (hinj (getCachePath_inj hp)))
  · intro h1
    rw [loadPthContent_miss env filePath st fl h1]
    refine ⟨(loadPthServer_ran env _).1, (loadPthServer_ran env _).2, ?_⟩
    intro r e hr he ht
    exact loadPthServer_writes env _ r e hr he ht

/-- Environment for the amended theorem's witness: identity digest, no
cache files, a clean worker result. -/
def cacheWitnessEnv : CacheEnv :=
  { md5 := fun s => s, cacheDir := "c",
    readFile := fun _ => none,
    jsonParse := fun _ => none,
    render := fun _ => some "html",
    serverResult := some (JsValue.jobj []) }

theorem cache_fingerprint_amended_witness :
    cacheWitnessEnv.md5 (keyContent "f" ⟨"1", "2"⟩ false) ≠
      cacheWitnessEnv.md5 (keyContent "f" ⟨"3", "2"⟩ false) ∧
    (loadPthContent cacheWitnessEnv "f" (some ⟨"1", "2"⟩) false).taskRan = true := by
  have h := cache_fingerprint_amended cacheWitnessEnv "f" ⟨"1", "2"⟩ ⟨"3", "2"⟩
    false false (fun a b hab => hab) (by decide) (by decide) (by decide)
    (by decide)
  exact ⟨(h.2.2.1 (by decide)).1, (h.2.2.2 rfl).1⟩

end PthViewer
